import Mathlib

/-!
Verification of the skynet agent core (`claude_clone`): a shallow embedding of
the tool-call extractor, plan manager, context manager, directory-approval
cache, shell tool and agent loop, with theorems checking the specification's
claims against the embedded code.

Python strings are modelled as `List Char` (with `String` wrappers where
convenient); machine-level details that no claim depends on (IEEE float
semantics of JSON numbers, Unicode-whitespace stripping beyond ASCII,
filesystem symlink resolution) are noted at the definition that abstracts
them.
-/

namespace ClaudeClone

/-- The character `\x7b` (opening curly brace), written via `Char.ofNat`. -/
def obr : Char := Char.ofNat 123

/-- The character `\x7d` (closing curly brace), written via `Char.ofNat`. -/
def cbr : Char := Char.ofNat 125

/-- ASCII whitespace as recognised by Python's `str.strip` (space, tab,
newline, carriage return, vertical tab, form feed).  Python also strips
Unicode whitespace; no claim involves non-ASCII whitespace. -/
def pyWs (c : Char) : Bool :=
  c = ' ' || c = '\t' || c = '\n' || c = '\r' || c = Char.ofNat 11 || c = Char.ofNat 12

/-- Python `str.strip()` on a character list. -/
def pyStrip (l : List Char) : List Char :=
  ((l.dropWhile pyWs).reverse.dropWhile pyWs).reverse

/-- Python `sub in s` (substring containment). -/
def pyContains (sub : List Char) : List Char → Bool
  | [] => sub.isEmpty
  | l@(_ :: rest) => sub.isPrefixOf l || pyContains sub rest

/-- Python `s.count(sub)`: number of non-overlapping occurrences, scanning
left to right.  Fuelled by the length of the scanned list. -/
def pyCountAux (sub : List Char) : Nat → List Char → Nat
  | 0, _ => 0
  | _ + 1, [] => 0
  | fuel + 1, l@(_ :: rest) =>
    if sub.isPrefixOf l then 1 + pyCountAux sub fuel (l.drop sub.length)
    else pyCountAux sub fuel rest

/-- Python `s.count(sub)` for a non-empty `sub` (all uses in the source pass
non-empty literals). -/
def pyCount (sub l : List Char) : Nat := pyCountAux sub l.length l

/-! ## JSON values (the result type of Python's `json.loads`) -/

/-- JSON values as produced by Python's `json.loads`.  Numeric literals are
kept as their source lexeme (`num "1.5"`): IEEE float semantics are outside
the model and no claim depends on numeric values.  Objects keep their members
in parse order; Python dict semantics (last duplicate key wins) are expressed
by the lookup function `pyDictGet`. -/
inductive Json where
  | null : Json
  | bool : Bool → Json
  | num : String → Json
  | str : String → Json
  | arr : List Json → Json
  | obj : List (String × Json) → Json

mutual

/-- Structural (Boolean) equality on `Json`, mirroring Python `==` on the
values `json.loads` returns (floats excepted: numeric literals compare by
lexeme here). -/
def Json.beq : Json → Json → Bool
  | .null, .null => true
  | .bool a, .bool b => a == b
  | .num a, .num b => a == b
  | .str a, .str b => a == b
  | .arr xs, .arr ys => Json.beqList xs ys
  | .obj xs, .obj ys => Json.beqPairs xs ys
  | _, _ => false

/-- Elementwise `Json.beq` on lists. -/
def Json.beqList : List Json → List Json → Bool
  | [], [] => true
  | x :: xs, y :: ys => Json.beq x y && Json.beqList xs ys
  | _, _ => false

/-- Pairwise `Json.beq` on object member lists. -/
def Json.beqPairs : List (String × Json) → List (String × Json) → Bool
  | [], [] => true
  | (k, v) :: xs, (k2, v2) :: ys => k == k2 && Json.beq v v2 && Json.beqPairs xs ys
  | _, _ => false

end

/-- Python `dict[k]` on a parse-ordered member list: the last binding wins
(duplicate keys in a JSON object overwrite earlier ones in `json.loads`). -/
def pyDictGet (kvs : List (String × Json)) (k : String) : Option Json :=
  (kvs.reverse.find? (fun p => p.1 = k)).map (·.2)

/-! ## A model of Python's `json.loads`

Recursive-descent parser for the grammar `json.loads` accepts in its default
strict mode: JSON values plus the CPython constants `NaN`, `Infinity` and
`-Infinity`; unescaped control characters below `U+0020` are rejected inside
strings.  The recursion is fuelled; the fuel passed by `json_loads` is ample
for every input, so exhaustion never fires on inputs `json.loads` accepts. -/

/-- JSON insignificant whitespace (space, tab, newline, carriage return). -/
def jsonWs (c : Char) : Bool :=
  c = ' ' || c = '\t' || c = '\n' || c = '\r'

/-- Skip insignificant JSON whitespace. -/
def skipWs (l : List Char) : List Char := l.dropWhile jsonWs

/-- Hex digit value, for `\uXXXX` escapes. -/
def hexVal (c : Char) : Option Nat :=
  if '0' ≤ c ∧ c ≤ '9' then some (c.toNat - '0'.toNat)
  else if 'a' ≤ c ∧ c ≤ 'f' then some (c.toNat - 'a'.toNat + 10)
  else if 'A' ≤ c ∧ c ≤ 'F' then some (c.toNat - 'A'.toNat + 10)
  else none

/-- Combine four hex digits into a code unit. -/
def hex4 (a b c d : Char) : Option Nat := do
  let a ← hexVal a; let b ← hexVal b; let c ← hexVal c; let d ← hexVal d
  pure (((a * 16 + b) * 16 + c) * 16 + d)

/-- Body of a JSON string after the opening quote: returns the decoded
characters and the input following the closing quote.  Surrogate pairs in
`\uXXXX` escapes are combined as CPython does; a *lone* surrogate (which
CPython keeps in the `str`) is mapped to `U+FFFD` because Lean's `Char`
carries only Unicode scalar values — no claim involves lone surrogates. -/
def parseStringBodyAux : Nat → List Char → Option (List Char × List Char)
  | 0, _ => none
  | _ + 1, [] => none
  | f + 1, c :: rest =>
    if c = '"' then some ([], rest)
    else if c = '\\' then
      match rest with
      | [] => none
      | 'u' :: h1 :: h2 :: h3 :: h4 :: rest6 =>
        match hex4 h1 h2 h3 h4 with
        | none => none
        | some n =>
          if 0xD800 ≤ n ∧ n ≤ 0xDBFF then
            match rest6 with
            | '\\' :: 'u' :: g1 :: g2 :: g3 :: g4 :: rest12 =>
              match hex4 g1 g2 g3 g4 with
              | some m =>
                if 0xDC00 ≤ m ∧ m ≤ 0xDFFF then
                  (parseStringBodyAux f rest12).map (fun (cs, r) =>
                    (Char.ofNat (0x10000 + (n - 0xD800) * 0x400 + (m - 0xDC00)) :: cs, r))
                else (parseStringBodyAux f rest6).map (fun (cs, r) => (Char.ofNat 0xFFFD :: cs, r))
              | none => (parseStringBodyAux f rest6).map (fun (cs, r) => (Char.ofNat 0xFFFD :: cs, r))
            | _ => (parseStringBodyAux f rest6).map (fun (cs, r) => (Char.ofNat 0xFFFD :: cs, r))
          else if 0xDC00 ≤ n ∧ n ≤ 0xDFFF then
            (parseStringBodyAux f rest6).map (fun (cs, r) => (Char.ofNat 0xFFFD :: cs, r))
          else (parseStringBodyAux f rest6).map (fun (cs, r) => (Char.ofNat n :: cs, r))
      | e :: rest2 =>
        let simple : Option Char :=
          if e = '"' then some '"'
          else if e = '\\' then some '\\'
          else if e = '/' then some '/'
          else if e = 'b' then some (Char.ofNat 8)
          else if e = 'f' then some (Char.ofNat 12)
          else if e = 'n' then some '\n'
          else if e = 'r' then some '\r'
          else if e = 't' then some '\t'
          else none
        match simple with
        | some d => (parseStringBodyAux f rest2).map (fun (cs, r) => (d :: cs, r))
        | none => none
    else if c.toNat < 0x20 then none
    else (parseStringBodyAux f rest).map (fun (cs, r) => (c :: cs, r))

/-- `parseStringBodyAux` with ample fuel (one unit covers at least one
consumed character, so the input length suffices). -/
def parseStringBody (l : List Char) : Option (List Char × List Char) :=
  parseStringBodyAux (l.length + 1) l

/-- Match the JSON number regex `(-?(?:0|[1-9]\d*))(\.\d+)?([eE][-+]?\d+)?`
at the head of the input, or the constant `-Infinity`.  Returns the lexeme
and the rest of the input. -/
def parseNumberFrom (l : List Char) : Option (Json × List Char) :=
  let (sgn, rest) := match l with
    | '-' :: r => (['-'], r)
    | _ => (([] : List Char), l)
  match rest.head? with
  | some d =>
    if d.isDigit then
      let intPart := if d = '0' then ['0'] else rest.takeWhile Char.isDigit
      let afterInt := rest.drop intPart.length
      let (fracPart, afterFrac) :=
        match afterInt with
        | '.' :: ds =>
          let digs := ds.takeWhile Char.isDigit
          if digs.isEmpty then (([] : List Char), afterInt)
          else ('.' :: digs, ds.drop digs.length)
        | _ => ([], afterInt)
      let (expPart, afterExp) :=
        match afterFrac with
        | e :: es =>
          if e = 'e' ∨ e = 'E' then
            let (esgn, es2) := match es with
              | '+' :: t => (['+'], t)
              | '-' :: t => (['-'], t)
              | _ => (([] : List Char), es)
            let digs := es2.takeWhile Char.isDigit
            if digs.isEmpty then (([] : List Char), afterFrac)
            else (e :: (esgn ++ digs), es2.drop digs.length)
          else ([], afterFrac)
        | [] => ([], afterFrac)
      some (Json.num (String.mk (sgn ++ intPart ++ fracPart ++ expPart)), afterExp)
    else if "-Infinity".data.isPrefixOf l then
      some (Json.num "-Infinity", l.drop 9)
    else none
  | none =>
    if "-Infinity".data.isPrefixOf l then some (Json.num "-Infinity", l.drop 9) else none

mutual

/-- Parse one JSON value (leading whitespace allowed), fuelled. -/
def parseValue : Nat → List Char → Option (Json × List Char)
  | 0, _ => none
  | f + 1, l =>
    match skipWs l with
    | [] => none
    | c :: rest =>
      if c = '"' then
        (parseStringBody rest).map (fun (cs, r) => (Json.str (String.mk cs), r))
      else if c = obr then
        match skipWs rest with
        | c2 :: rest2 =>
          if c2 = cbr then some (Json.obj [], rest2)
          else parseMembers f (skipWs rest) []
        | [] => none
      else if c = '[' then
        match skipWs rest with
        | c2 :: rest2 =>
          if c2 = ']' then some (Json.arr [], rest2)
          else parseElems f (skipWs rest) []
        | [] => none
      else if c = 't' then
        if "rue".data.isPrefixOf rest then some (Json.bool true, rest.drop 3) else none
      else if c = 'f' then
        if "alse".data.isPrefixOf rest then some (Json.bool false, rest.drop 4) else none
      else if c = 'n' then
        if "ull".data.isPrefixOf rest then some (Json.null, rest.drop 3) else none
      else if c = 'N' then
        if "aN".data.isPrefixOf rest then some (Json.num "NaN", rest.drop 2) else none
      else if c = 'I' then
        if "nfinity".data.isPrefixOf rest then some (Json.num "Infinity", rest.drop 7) else none
      else if c = '-' ∨ c.isDigit then parseNumberFrom (c :: rest)
      else none

/-- Parse object members, positioned at a key (a string), fuelled. -/
def parseMembers : Nat → List Char → List (String × Json) → Option (Json × List Char)
  | 0, _, _ => none
  | f + 1, l, acc =>
    match l with
    | c :: rest =>
      if c = '"' then
        match parseStringBody rest with
        | some (k, r1) =>
          match skipWs r1 with
          | ':' :: r2 =>
            match parseValue f r2 with
            | some (v, r3) =>
              match skipWs r3 with
              | ',' :: r4 => parseMembers f (skipWs r4) (acc ++ [(String.mk k, v)])
              | c5 :: r5 =>
                if c5 = cbr then some (Json.obj (acc ++ [(String.mk k, v)]), r5) else none
              | [] => none
            | none => none
          | _ => none
        | none => none
      else none
    | [] => none

/-- Parse array elements, positioned at a value, fuelled. -/
def parseElems : Nat → List Char → List Json → Option (Json × List Char)
  | 0, _, _ => none
  | f + 1, l, acc =>
    match parseValue f l with
    | some (v, r1) =>
      match skipWs r1 with
      | ',' :: r2 => parseElems f r2 (acc ++ [v])
      | ']' :: r2 => some (Json.arr (acc ++ [v]), r2)
      | _ => none
    | none => none

end

/-- Model of Python's `json.loads` on a character list: parse one value and
require only whitespace to remain, else fail (Python raises
`JSONDecodeError`, which every caller in the source catches). -/
def json_loads (l : List Char) : Option Json :=
  match parseValue (2 * l.length + 4) l with
  | some (v, rest) => if (skipWs rest).isEmpty then some v else none
  | none => none

/-! ## Tool calls and messages (`llm/ollama_provider.py`) -/

/-- `ToolCall` dataclass.  The Python annotation for `name` is `str`, but
dataclasses do not enforce annotations and `extract_json_tool_call` stores
`data["name"]` unchecked, so the field is modelled as the `Json` value it
actually receives (a `Json.str` in every intended case).  `arguments` is the
dict the code guarantees (`{}` substituted for non-dict values). -/
structure ToolCall where
  name : Json
  arguments : List (String × Json)

/-- `Message` dataclass (role, content, optional tool calls; `tool_call_id`
is never read by the embedded code paths but kept for fidelity). -/
structure Message where
  role : String
  content : String
  tool_calls : Option (List ToolCall) := none
  tool_call_id : Option String := none

/-- `ChatChunk` dataclass: one unit of the provider's streamed response. -/
structure ChatChunk where
  content : Option String := none
  tool_calls : List ToolCall := []
  done : Bool := false

/-! ## `find_balanced_json` (ollama_provider.py lines 38-78) -/

/-- The scanning loop of `find_balanced_json`, on the suffix of the text that
starts at `start_idx`.  Returns the number of characters of the balanced
JSON object (so `json_str` is `take n` and `end_idx` is `start_idx + n`), or
`none`.  State mirrors the Python locals: `brace`/`bracket` counters and the
`in_string`/`escape_next` flags.  `bracket_count` is tracked but—as in the
source—never consulted by the termination test.  The Python guard
`char == '"' and not escape_next` simplifies to `char == '"'` because
`escape_next` is always false when reached (both branches that see it set
`continue`). -/
def fbjAux : List Char → Int → Int → Bool → Bool → Option Nat
  | [], _, _, _, _ => none
  | c :: rest, brace, bracket, inStr, esc =>
    if esc then (fbjAux rest brace bracket inStr false).map (· + 1)
    else if c = '\\' && inStr then (fbjAux rest brace bracket inStr true).map (· + 1)
    else if c = '"' then (fbjAux rest brace bracket (!inStr) esc).map (· + 1)
    else if !inStr then
      if c = obr then (fbjAux rest (brace + 1) bracket inStr esc).map (· + 1)
      else if c = cbr then
        if brace - 1 = 0 then some 1
        else (fbjAux rest (brace - 1) bracket inStr esc).map (· + 1)
      else if c = '[' then (fbjAux rest brace (bracket + 1) inStr esc).map (· + 1)
      else if c = ']' then (fbjAux rest brace (bracket - 1) inStr esc).map (· + 1)
      else (fbjAux rest brace bracket inStr esc).map (· + 1)
    else (fbjAux rest brace bracket inStr esc).map (· + 1)

/-- `find_balanced_json(text, start_idx)` on the suffix starting at
`start_idx`: `none` unless the first character is `\x7b`, else the balanced
scan. -/
def find_balanced_json (l : List Char) : Option Nat :=
  match l with
  | c :: _ => if c = obr then fbjAux l 0 0 false false else none
  | [] => none

/-! ## `extract_json_tool_call` (ollama_provider.py lines 80-139) -/

/-- The known tool names searched by the fallback `tool_name {...}` formats. -/
def known_tools : List String :=
  ["read_file", "write_file", "edit_file", "grep", "glob",
   "bash", "git_status", "git_diff", "git_commit", "git_log", "git_branch",
   "web_search", "web_fetch", "create_plan", "todo_write"]

/-- First scanning pass: find every `{"name": ..., "arguments": ...}` object.
Mirrors the `while i < len(content)` loop: at each `\x7b` try
`find_balanced_json` then `json.loads`; a parsed dict containing both keys
`"name"` and `"arguments"` is accepted (`data["arguments"]` replaced by `{}`
when not a dict), and scanning resumes at `end_idx`; otherwise `i += 1`.
Membership (`"name" in data`) coincides with the lookups being `some`.
Fuelled; one unit per loop step, so the content length is ample. -/
def scanPhase1 : Nat → List Char → Nat → List ToolCall × List (Nat × Nat)
  | 0, _, _ => ([], [])
  | _ + 1, [], _ => ([], [])
  | f + 1, l@(c :: rest), pos =>
    if c = obr then
      match find_balanced_json l with
      | some len =>
        match json_loads (l.take len) with
        | some (Json.obj kvs) =>
          match pyDictGet kvs "name", pyDictGet kvs "arguments" with
          | some nm, some args =>
            let tc : ToolCall :=
              { name := nm,
                arguments := match args with | Json.obj a => a | _ => [] }
            let (tcs, ms) := scanPhase1 f (l.drop len) (pos + len)
            (tc :: tcs, (pos, pos + len) :: ms)
          | _, _ => scanPhase1 f rest (pos + 1)
        | _ => scanPhase1 f rest (pos + 1)
      | none => scanPhase1 f rest (pos + 1)
    else scanPhase1 f rest (pos + 1)

/-- Match length of the fallback regexes at the head of `l`:
`tool_name\s*\(\s*\x7b` when `wantParen`, else `tool_name\s*\x7b`.
`\s` is the ASCII whitespace class (same six characters as `pyWs`); the
greedy `\s*` is unambiguous because `(` and `\x7b` are not whitespace. -/
def p2MatchLen (name : List Char) (wantParen : Bool) (l : List Char) : Option Nat :=
  if name.isPrefixOf l then
    let r1 := l.drop name.length
    let ws1 := r1.takeWhile pyWs
    let r2 := r1.drop ws1.length
    if wantParen then
      match r2 with
      | '(' :: r3 =>
        let ws2 := r3.takeWhile pyWs
        let r4 := r3.drop ws2.length
        match r4.head? with
        | some c => if c = obr then some (name.length + ws1.length + 1 + ws2.length + 1) else none
        | none => none
      | _ => none
    else
      match r2.head? with
      | some c => if c = obr then some (name.length + ws1.length + 1) else none
      | none => none
  else none

/-- `re.finditer`: successive non-overlapping leftmost matches, as
`(start, end)` index pairs; a zero-width match advances the scan position by
one, as CPython does.  Fuelled by the content length plus one (`finditer`
also probes the end-of-string position). -/
def reFinditer (matchLen : List Char → Option Nat) : Nat → List Char → Nat → List (Nat × Nat)
  | 0, _, _ => []
  | _ + 1, [], pos =>
    match matchLen [] with
    | some n => [(pos, pos + n)]
    | none => []
  | f + 1, l@(_ :: rest), pos =>
    match matchLen l with
    | some n =>
      if n = 0 then (pos, pos) :: reFinditer matchLen f rest (pos + 1)
      else (pos, pos + n) :: reFinditer matchLen f (l.drop n) (pos + n)
    | none => reFinditer matchLen f rest (pos + 1)

/-- One `(pattern, offset_adjust)` round of the fallback scan for one tool
name: for every regex match, run `find_balanced_json` from the opening brace
(`match.end() - 1`); accept when `json.loads` yields a dict, extending the
removal span over a closing parenthesis for the call-style pattern. -/
def phase2Matches (content : List Char) (nm : String) (wantParen : Bool) :
    List ToolCall × List (Nat × Nat) :=
  (reFinditer (p2MatchLen nm.data wantParen) (content.length + 1) content 0).foldl
    (fun acc se =>
      let braceStart := se.2 - 1
      match find_balanced_json (content.drop braceStart) with
      | some len =>
        match json_loads ((content.drop braceStart).take len) with
        | some (Json.obj kvs) =>
          let endIdx := braceStart + len
          let matchEnd :=
            if wantParen ∧ (content.drop endIdx).head? = some ')' then endIdx + 1 else endIdx
          (acc.1 ++ [{ name := Json.str nm, arguments := kvs }], acc.2 ++ [(se.1, matchEnd)])
        | _ => acc
      | none => acc)
    ([], [])

/-- The full fallback pass (`if not tool_calls:`): for each known tool name,
the call-style pattern (`offset_adjust == 2`) then the bare pattern. -/
def phase2 (content : List Char) : List ToolCall × List (Nat × Nat) :=
  known_tools.foldl
    (fun acc nm =>
      let a1 := phase2Matches content nm true
      let a2 := phase2Matches content nm false
      (acc.1 ++ a1.1 ++ a2.1, acc.2 ++ a1.2 ++ a2.2))
    ([], [])

/-- Python `sorted`'s insertion into a sorted list (stable). -/
def insertLe {α : Type} (le : α → α → Bool) (x : α) : List α → List α
  | [] => [x]
  | y :: ys => if le x y then x :: y :: ys else y :: insertLe le x ys

/-- Model of Python `sorted` with a Boolean total order (stable insertion
sort; every use in the source sorts by a key on which the order is total). -/
def sortLe {α : Type} (le : α → α → Bool) : List α → List α
  | [] => []
  | x :: xs => insertLe le x (sortLe le xs)

/-- Python tuple comparison on `(start, end)` index pairs (lexicographic). -/
def pairLeB (a b : Nat × Nat) : Bool :=
  a.1 < b.1 || (a.1 == b.1 && a.2 ≤ b.2)

/-- The removal loop: `for start, end in reversed(sorted(matches)):
remaining = remaining[:start] + remaining[end:]`. -/
def removeRanges (content : List Char) (ms : List (Nat × Nat)) : List Char :=
  ((sortLe pairLeB ms).reverse).foldl (fun rem se => rem.take se.1 ++ rem.drop se.2) content

/-- `extract_json_tool_call(content)`: the standard-format scan, the
fallback formats when it found nothing, then removal of the matched spans
from the content, stripped (`None` when empty).  Returns
`(remaining_content_or_none, tool_calls)`; with no matches the input is
returned unchanged with an empty list. -/
def extract_json_tool_call (content : List Char) : Option (List Char) × List ToolCall :=
  let p1 := scanPhase1 content.length content 0
  let r := if p1.1.isEmpty then phase2 content else p1
  if r.1.isEmpty then (some content, [])
  else
    let remaining := pyStrip (removeRanges content r.2)
    (if remaining.isEmpty then none else some remaining, r.1)

/-! ## Python `repr`/`str` of parsed JSON values

Needed to embed the deduplication key
`(tc.name, str(sorted(tc.arguments.items()) if tc.arguments else []))`
from `Agent.process_message`.  Float `repr` (shortest round-trip) is outside
the model: numeric lexemes are rendered as themselves (with the single
integer normalisation `-0 → 0`); no claim involves numbers. -/

/-- Lower-case hex digit. -/
def hexDigit (n : Nat) : Char :=
  if n < 10 then Char.ofNat ('0'.toNat + n) else Char.ofNat ('a'.toNat + n - 10)

/-- One character of Python `repr` of a `str`, given the chosen quote. -/
def pyReprStrChar (q c : Char) : List Char :=
  if c = '\\' then ['\\', '\\']
  else if c = q then ['\\', q]
  else if c = '\n' then ['\\', 'n']
  else if c = '\r' then ['\\', 'r']
  else if c = '\t' then ['\\', 't']
  else if c.toNat < 0x20 ∨ c.toNat = 0x7f then ['\\', 'x', hexDigit (c.toNat / 16), hexDigit (c.toNat % 16)]
  else [c]

/-- Python `repr` of a `str`: single quotes, switching to double quotes when
the string contains a single quote but no double quote. -/
def pyReprStr (s : String) : String :=
  let sq := Char.ofNat 39
  let q := if s.data.contains sq ∧ ¬ s.data.contains '"' then '"' else sq
  String.mk (q :: s.data.flatMap (pyReprStrChar q) ++ [q])

mutual

/-- Python `repr` of a value `json.loads` produced (equal to `str` for
containers). -/
def pyRepr : Json → String
  | .null => "None"
  | .bool true => "True"
  | .bool false => "False"
  | .num s => if s = "-0" then "0" else s
  | .str s => pyReprStr s
  | .arr xs => "[" ++ pyReprList xs ++ "]"
  | .obj kvs => String.mk [obr] ++ pyReprMembers kvs ++ String.mk [cbr]

/-- Comma-separated `repr`s of list elements. -/
def pyReprList : List Json → String
  | [] => ""
  | [x] => pyRepr x
  | x :: xs => pyRepr x ++ ", " ++ pyReprList xs

/-- Comma-separated `'key': value` renderings of dict members. -/
def pyReprMembers : List (String × Json) → String
  | [] => ""
  | [(k, v)] => pyReprStr k ++ ": " ++ pyRepr v
  | (k, v) :: xs => pyReprStr k ++ ": " ++ pyRepr v ++ ", " ++ pyReprMembers xs

end

/-- Python `str` of a value `json.loads` produced: identity on `str`, `repr`
otherwise. -/
def pyStr : Json → String
  | .str s => s
  | j => pyRepr j

/-! ## Tool-call deduplication (`core/agent.py` lines 185-195) -/

/-- Python `dict.items()` when the dict was built from a member list with
possible duplicate keys: first-occurrence order, last-binding values. -/
def pyDictItemsAux : Nat → List (String × Json) → List (String × Json)
  | 0, _ => []
  | _ + 1, [] => []
  | f + 1, (k, v) :: rest =>
    (k, (pyDictGet rest k).getD v) :: pyDictItemsAux f (rest.filter (fun p => ¬ p.1 = k))

/-- Python `dict.items()` (see `pyDictItemsAux`). -/
def pyDictItems (kvs : List (String × Json)) : List (String × Json) :=
  pyDictItemsAux kvs.length kvs

/-- Python string `<` (lexicographic by code point). -/
def strLtB : List Char → List Char → Bool
  | [], [] => false
  | [], _ :: _ => true
  | _ :: _, [] => false
  | a :: as, b :: bs => a < b || (a == b && strLtB as bs)

/-- Python tuple `≤` on dict items, as used by `sorted(...items())`: compare
keys; ties would compare the values, which never happens because dict keys
are unique. -/
def itemLe (p q : String × Json) : Bool :=
  strLtB p.1.data q.1.data || p.1 == q.1

/-- Python `str(...)` of a list of `(key, value)` 2-tuples, e.g.
`[('a', 1), ('b', 'x')]`. -/
def pyReprItemsList (items : List (String × Json)) : String :=
  "[" ++ String.intercalate ", "
    (items.map (fun p => "(" ++ pyReprStr p.1 ++ ", " ++ pyRepr p.2 ++ ")")) ++ "]"

/-- The deduplication key from `Agent.process_message`:
`(tc.name, str(sorted(tc.arguments.items()) if tc.arguments else []))`
(an empty dict is falsy, giving `str([]) = "[]"`). -/
def dedup_key (tc : ToolCall) : Json × String :=
  (tc.name,
   pyReprItemsList (if tc.arguments.isEmpty then [] else sortLe itemLe (pyDictItems tc.arguments)))

/-- Equality of deduplication keys (Python tuple equality in the `seen`
set). -/
def keyBeq (a b : Json × String) : Bool :=
  Json.beq a.1 b.1 && a.2 == b.2

/-- The loop of the deduplication block, threading the `seen` set (modelled
as a list with membership semantics). -/
def dedupAux : List ToolCall → List (Json × String) → List ToolCall
  | [], _ => []
  | tc :: rest, seen =>
    let k := dedup_key tc
    if seen.any (keyBeq k) then dedupAux rest seen
    else tc :: dedupAux rest (k :: seen)

/-- The deduplication performed by `Agent.process_message` on the combined
tool-call list: keep the first occurrence of each `(name, arguments)` key, in
order. -/
def dedup_tool_calls (tcs : List ToolCall) : List ToolCall :=
  dedupAux tcs []

/-! ## Plan manager (`core/plan.py`) -/

/-- `PlanStatus` enum. -/
inductive PlanStatus where
  | drafting | pending_approval | approved | executing | completed | rejected
  deriving DecidableEq, Repr

/-- `PlanStep` dataclass (status is one of
pending/in_progress/completed/skipped, kept as the Python string). -/
structure PlanStep where
  description : String
  files_affected : List String := []
  status : String := "pending"

/-- `Plan` dataclass.  The `created_at` wall-clock timestamp is outside the
model and unused by every claim. -/
structure Plan where
  goal : String
  steps : List PlanStep
  status : PlanStatus := .drafting

/-- The mutable state of the `PlanManager` singleton (`plan_dir` and the
`save_plan` persistence path are filesystem effects outside the model and
unused by the claims). -/
structure PlanManagerState where
  plan_mode_active : Bool := false
  current_plan : Option Plan := none

/-- `PlanManager._init`: fresh singleton state. -/
def PlanManagerState.init : PlanManagerState := {}

/-- `start_plan_mode`: enter plan mode, discarding any current plan. -/
def start_plan_mode (_st : PlanManagerState) : PlanManagerState :=
  { plan_mode_active := true, current_plan := none }

/-- `end_plan_mode`. -/
def end_plan_mode (st : PlanManagerState) : PlanManagerState :=
  { st with plan_mode_active := false }

/-- `create_plan(goal, steps)`: a new plan in PENDING_APPROVAL replacing any
existing plan.  The Python step dicts are modelled as already-extracted
`PlanStep` values (`s.get("description", "")` / `s.get("files_affected", [])`
defaults applied by the caller); step construction details are not touched by
any claim. -/
def create_plan (st : PlanManagerState) (goal : String) (steps : List PlanStep) :
    Plan × PlanManagerState :=
  let plan : Plan :=
    { goal := goal,
      steps := steps.map (fun s => { s with status := "pending" }),
      status := .pending_approval }
  (plan, { st with current_plan := some plan })

/-- `approve_plan()`: `True` and APPROVED + plan-mode cleared whenever a
current plan exists (whatever its status); `False` and no change otherwise. -/
def approve_plan (st : PlanManagerState) : Bool × PlanManagerState :=
  match st.current_plan with
  | some p =>
    (true, { plan_mode_active := false, current_plan := some { p with status := .approved } })
  | none => (false, st)

/-- `reject_plan()`: mark REJECTED, discard the plan, exit plan mode; `False`
if no plan exists. -/
def reject_plan (st : PlanManagerState) : Bool × PlanManagerState :=
  match st.current_plan with
  | some _ => (true, { plan_mode_active := false, current_plan := none })
  | none => (false, st)

/-- `has_pending_plan()`. -/
def has_pending_plan (st : PlanManagerState) : Bool :=
  match st.current_plan with
  | some p => p.status = .pending_approval
  | none => false

/-- `READONLY_TOOLS`: the fixed set of tools allowed in plan mode (read-only
tools, task tracking, and the plan-creation tool itself). -/
def READONLY_TOOLS : List String :=
  ["read_file", "grep", "glob", "git_status", "git_diff", "git_log",
   "git_branch", "web_search", "web_fetch", "todo_write", "create_plan"]

/-- `is_tool_allowed(tool_name)`: unconditionally true outside plan mode,
else membership in `READONLY_TOOLS`. -/
def is_tool_allowed (st : PlanManagerState) (tool_name : String) : Bool :=
  if !st.plan_mode_active then true
  else READONLY_TOOLS.contains tool_name

/-! ## Context manager (`core/context.py`) -/

/-- `self.threshold = int(max_tokens * summarize_threshold)` for the default
`summarize_threshold = 0.75`.  `0.75` is exactly `3/4` in binary floating
point and the product is exact for every realistic window size, so the float
truncation equals natural-number floor division. -/
def contextThreshold (max_tokens : Nat) : Nat := max_tokens * 3 / 4

/-- `should_summarize(messages)`: the token count — via the pluggable counter
`count` (`TokenCounter.count_messages` wraps the external `tiktoken`
library) — strictly exceeds the stored threshold. -/
def should_summarize (count : List Message → Nat) (max_tokens : Nat)
    (messages : List Message) : Bool :=
  count messages > contextThreshold max_tokens

/-- `_format_messages_for_summary`: role-labelled transcript with content
capped at 1000 characters plus a truncation marker, and one-line tool-call
annotations. -/
def format_messages_for_summary (messages : List Message) : String :=
  String.intercalate "\n\n" (messages.flatMap (fun msg =>
    let content :=
      String.mk (msg.content.data.take 1000) ++
        (if msg.content.data.length > 1000 then "... [truncated]" else "")
    let line := msg.role.toUpper ++ ": " ++ content
    line :: (match msg.tool_calls with
      | some tcs => tcs.map (fun tc => "  [Called tool: " ++ pyStr tc.name ++ "]")
      | none => [])))

/-- The fixed two-message summarization request sent to the provider. -/
def summary_request (old_messages : List Message) : List Message :=
  [{ role := "system",
     content := "You are a helpful assistant that creates concise conversation summaries. " ++
       "Summarize the key points, decisions, and context from the conversation. " ++
       "Focus on information needed to continue the conversation coherently. " ++
       "Be concise but preserve important details." },
   { role := "user",
     content := "Summarize this conversation:\n\n" ++ format_messages_for_summary old_messages ++
       "\n\nProvide a brief summary capturing key points and context." }]

/-- Accumulate the non-streamed provider reply:
`async for chunk: if chunk.content: summary += chunk.content`. -/
def summaryFromChunks (chunks : List ChatChunk) : String :=
  chunks.foldl (fun acc c => match c.content with | some t => acc ++ t | none => acc) ""

/-- `summarize_conversation(messages, keep_recent)`.  The provider reply is
the `summaryChunks` parameter (external collaborator).  Python's negative
slices are mirrored exactly, including the `keep_recent = 0` quirk
(`messages[1:-0]` is empty and `messages[-0:]` is the whole list). -/
def summarize_conversation (summaryChunks : List ChatChunk) (messages : List Message)
    (keep_recent : Nat := 4) : List Message :=
  let min_messages := 1 + keep_recent * 2 + 2
  if messages.length ≤ min_messages then messages
  else
    let recent_count := keep_recent * 2
    let old_messages :=
      if recent_count = 0 then [] else (messages.take (messages.length - recent_count)).drop 1
    let recent_messages :=
      if recent_count = 0 then messages else messages.drop (messages.length - recent_count)
    if old_messages.length < 2 then messages
    else
      match messages with
      | [] => messages
      | system_msg :: _ =>
        let summary := summaryFromChunks summaryChunks
        let summary_msg : Message :=
          { role := "system",
            content := "[Previous conversation summary]\n" ++ summary ++ "\n[End of summary]" }
        system_msg :: summary_msg :: recent_messages

/-! ## Directory approval (`core/agent.py` lines 447-466)

Paths are modelled as resolved absolute component lists (`/a/b` is
`["a", "b"]`).  `Path.relative_to(base)` succeeds exactly when `base`'s
components are a prefix of the path's; `Path.resolve()`'s symlink and `..`
normalisation is a filesystem effect outside the model — paths enter the
model already resolved.  The `approved_directories` set is modelled as a
list with membership semantics. -/

/-- `_is_directory_approved`: some previously approved directory equals the
queried one or is an ancestor of it. -/
def is_directory_approved (approved_directories : List (List String))
    (dir_path : List String) : Bool :=
  approved_directories.any (fun approved => approved.isPrefixOf dir_path)

/-- `_approve_directory`: add the resolved directory to the approved set
(append-only; nothing is ever removed). -/
def approve_directory (approved_directories : List (List String))
    (directory : List String) : List (List String) :=
  directory :: approved_directories

/-! ## Shell tool (`tools/shell.py`)

`_is_blocked` applies `re.search` with `re.IGNORECASE` over the
`BLOCKED_COMMANDS` patterns; those use only literals, `\s*`, `\s+`, `.*`,
one character class and `$`, embedded here as token lists with a small
backtracking matcher.  (`DANGEROUS_COMMANDS`/`_is_dangerous` are never called
by `execute` and are omitted.) -/

/-- Regex tokens covering the constructs in `BLOCKED_COMMANDS`. -/
inductive RTok where
  | lit : Char → RTok
  | cls : List Char → RTok
  | wsStar : RTok
  | wsPlus : RTok
  | anyStar : RTok
  | eol : RTok

/-- Case-insensitive character comparison (`re.IGNORECASE`). -/
def lcEq (a b : Char) : Bool := a.toLower == b.toLower

/-- Match a token list at the head of the input (fuelled backtracking; each
step shrinks tokens-plus-input, so their combined length is ample fuel).
`$` matches at the end of the input or before a single trailing newline, and
`.` excludes newline, as in CPython `re`. -/
def reMatch : Nat → List RTok → List Char → Bool
  | 0, _, _ => false
  | _ + 1, [], _ => true
  | f + 1, t :: ts, l =>
    match t with
    | .lit c =>
      match l with
      | x :: xs => lcEq c x && reMatch f ts xs
      | [] => false
    | .cls cs =>
      match l with
      | x :: xs => cs.any (fun c => lcEq c x) && reMatch f ts xs
      | [] => false
    | .wsPlus =>
      match l with
      | x :: xs => pyWs x && reMatch f (.wsStar :: ts) xs
      | [] => false
    | .wsStar =>
      reMatch f ts l ||
        (match l with
         | x :: xs => pyWs x && reMatch f (.wsStar :: ts) xs
         | [] => false)
    | .anyStar =>
      reMatch f ts l ||
        (match l with
         | x :: xs => !(x == '\n') && reMatch f (.anyStar :: ts) xs
         | [] => false)
    | .eol => (l.isEmpty || l == ['\n']) && reMatch f ts l

/-- `re.search`: try a match at every position. -/
def reSearch (toks : List RTok) : List Char → Bool
  | [] => reMatch (toks.length + 1) toks []
  | l@(_ :: rest) => reMatch (toks.length + l.length + 1) toks l || reSearch toks rest

/-- Literal token run. -/
def lits (s : String) : List RTok := s.data.map RTok.lit

/-- The `BLOCKED_COMMANDS` patterns. -/
def BLOCKED_COMMANDS : List (List RTok) :=
  [lits "rm" ++ [.wsPlus] ++ lits "-rf" ++ [.wsPlus] ++ lits "/" ++ [.wsStar, .eol],
   lits "rm" ++ [.wsPlus] ++ lits "-rf" ++ [.wsPlus] ++ lits "/*",
   lits "rm" ++ [.wsPlus] ++ lits "-rf" ++ [.wsPlus] ++ lits "~" ++ [.wsStar, .eol],
   lits "mkfs.",
   lits "dd" ++ [.wsPlus] ++ lits "if=" ++ [.anyStar] ++ lits "of=/dev/" ++ [.cls ['s', 'h']] ++ lits "d",
   lits ">" ++ [.wsStar] ++ lits "/dev/sd",
   lits "chmod" ++ [.wsPlus] ++ lits "-R" ++ [.wsPlus] ++ lits "777" ++ [.wsPlus] ++ lits "/" ++ [.wsStar, .eol],
   lits "chown" ++ [.wsPlus] ++ lits "-R" ++ [.anyStar] ++ lits ":" ++ [.wsStar] ++ lits "/" ++ [.wsStar, .eol],
   lits "curl" ++ [.anyStar, .lit '|', .wsStar] ++ lits "sh",
   lits "wget" ++ [.anyStar, .lit '|', .wsStar] ++ lits "sh",
   lits "curl" ++ [.anyStar, .lit '|', .wsStar] ++ lits "bash",
   lits "wget" ++ [.anyStar, .lit '|', .wsStar] ++ lits "bash"]

/-- `BashTool._is_blocked`. -/
def is_blocked (command : String) : Bool :=
  BLOCKED_COMMANDS.any (fun p => reSearch p command.data)

/-- `ToolResult` dataclass; metadata is a keyword dict. -/
structure ToolResult where
  success : Bool
  output : String
  error : Option String := none
  metadata : List (String × Json) := []

/-- `ToolResult.ok`. -/
def ToolResult.ok (output : String) (metadata : List (String × Json) := []) : ToolResult :=
  { success := true, output := output, metadata := metadata }

/-- `ToolResult.fail`. -/
def ToolResult.fail (error : String) : ToolResult :=
  { success := false, output := "", error := some error }

/-- What the spawned subprocess did: ran to completion within the timeout, or
timed out, or raised (missing working directory, permission, other). -/
inductive SubprocessOutcome where
  | completed (stdout stderr : String) (returncode : Int)
  | timedOut
  | workingDirMissing
  | permissionDenied
  | execError (msg : String)

/-- `BashTool.execute(command, working_directory, timeout)`.  The subprocess
itself is the external collaborator, given by `outcome`; `pyCwd` stands for
`os.getcwd()`.  `working_directory or os.getcwd()` is Python truthiness, so
an empty string also falls back to the process cwd. -/
def bash_execute (command : String) (working_directory : Option String)
    (timeout : Nat) (pyCwd : String) (outcome : SubprocessOutcome) : ToolResult :=
  if is_blocked command then
    ToolResult.fail ("Command blocked for safety: " ++ command ++
      "\nThis command pattern is considered too dangerous to execute.")
  else
    let cwd := match working_directory with
      | some s => if s.isEmpty then pyCwd else s
      | none => pyCwd
    match outcome with
    | .timedOut =>
      ToolResult.fail ("Command timed out after " ++ toString timeout ++ " seconds: " ++ command)
    | .workingDirMissing => ToolResult.fail ("Working directory not found: " ++ cwd)
    | .permissionDenied => ToolResult.fail "Permission denied executing command"
    | .execError msg => ToolResult.fail ("Command execution error: " ++ msg)
    | .completed stdout stderr rc =>
      let stdout_text := String.mk (pyStrip stdout.data)
      let stderr_text := String.mk (pyStrip stderr.data)
      let output_parts : List String :=
        (if stdout_text.isEmpty then [] else [stdout_text]) ++
        (if stderr_text.isEmpty then []
         else if stdout_text.isEmpty then [stderr_text]
         else ["\n[stderr]\n" ++ stderr_text])
      let output := if output_parts.isEmpty then "(no output)"
        else String.intercalate "\n" output_parts
      let output := if output.data.length > 50000 then
          String.mk (output.data.take 50000) ++ "\n\n[Output truncated at 50000 characters]"
        else output
      if rc = 0 then
        ToolResult.ok output [("exit_code", Json.num (toString rc)), ("command", Json.str command)]
      else
        ToolResult.ok ("[Exit code: " ++ toString rc ++ "]\n\n" ++ output)
          [("exit_code", Json.num (toString rc)), ("command", Json.str command)]

/-! ## Interrupts and permission mode (`core/interrupt.py`, `config.py`) -/

/-- `InterruptType` enum. -/
inductive InterruptType where
  | NONE | SOFT | HARD
  deriving DecidableEq, Repr

/-- `PermissionMode` enum. -/
inductive PermissionMode where
  | NORMAL | AUTO_ACCEPT | PLAN_MODE
  deriving DecidableEq, Repr

/-- The fields of `Settings` read by the agent's confirmation policy. -/
structure Settings where
  confirm_writes : Bool := true
  confirm_commands : Bool := true

/-! ## Agent confirmation policy and tool-directory derivation
(`core/agent.py` lines 373-445) -/

/-- The read-only shell commands whose first word bypasses confirmation. -/
def safe_commands : List String :=
  ["ls", "cat", "head", "tail", "grep", "find", "pwd", "echo",
   "which", "type", "file", "wc", "du", "df", "date", "whoami",
   "uname", "env", "printenv", "test", "["]

/-- `command.split()[0] if command.split() else ""`: the first
whitespace-delimited word, or the empty string. -/
def pyFirstWord (s : String) : String :=
  String.mk ((s.data.dropWhile pyWs).takeWhile (fun c => !(pyWs c)))

/-- `Agent._requires_confirmation(tool_name, arguments)` for a string tool
name.  Mirrors the early-return chain: auto-accept mode, write tools, shell
commands with the safe-first-word bypass, git commits, else false. -/
def requires_confirmation (mode : PermissionMode) (settings : Settings)
    (tool_name : String) (arguments : List (String × Json)) : Bool :=
  if mode = .AUTO_ACCEPT then false
  else if (tool_name = "write_file" ∨ tool_name = "edit_file") ∧ settings.confirm_writes then true
  else if tool_name = "bash" ∧ settings.confirm_commands then
    let command := match pyDictGet arguments "command" with
      | some (Json.str s) => s
      | _ => ""
    if safe_commands.contains (pyFirstWord command) then false else true
  else if tool_name = "git_commit" ∧ settings.confirm_writes then true
  else false

/-- Split a path string into components (empty components collapse, as
`pathlib` does; `..`/symlink resolution is a filesystem effect outside the
model). -/
def splitSlash (s : String) : List String :=
  (s.splitOn "/").filter (fun c => ¬ c.isEmpty)

/-- String argument lookup with Python's `.get(k, default)`; a non-string
value (which would make `Path(...)` raise) is treated as the default — no
claim exercises that. -/
def strArgD (arguments : List (String × Json)) (k d : String) : String :=
  match pyDictGet arguments k with
  | some (Json.str s) => s
  | _ => d

/-- `Agent._get_tool_directory(tool_name, arguments)` on resolved component
paths: file tools use the parent of the target path (joined to the cwd when
relative), shell tools the working directory, git tools the repo path,
everything else the cwd. -/
def get_tool_directory (cwdPath : List String) (tool_name : String)
    (arguments : List (String × Json)) : List String :=
  if tool_name = "write_file" ∨ tool_name = "edit_file" ∨ tool_name = "read_file" then
    let file_path := strArgD arguments "path" (strArgD arguments "file_path" "")
    if ¬ file_path.isEmpty then
      if file_path.data.head? = some '/' then (splitSlash file_path).dropLast
      else (cwdPath ++ splitSlash file_path).dropLast
    else cwdPath
  else if tool_name = "bash" then
    let cwd := strArgD arguments "cwd" (strArgD arguments "working_dir" "")
    if ¬ cwd.isEmpty then
      if cwd.data.head? = some '/' then splitSlash cwd else cwdPath ++ splitSlash cwd
    else cwdPath
  else if tool_name = "git_commit" ∨ tool_name = "git_status" ∨ tool_name = "git_diff" then
    let repo_path := strArgD arguments "repo_path" (strArgD arguments "path" "")
    if ¬ repo_path.isEmpty then
      if repo_path.data.head? = some '/' then splitSlash repo_path else cwdPath ++ splitSlash repo_path
    else cwdPath
  else cwdPath

/-! ## The agent loop (`core/agent.py` `process_message`, lines 68-371)

External collaborators are oracles in `AgentEnv`: the provider stream per
LLM call, the summarization reply, the token counter (`tiktoken`), the tool
registry, the interrupt flag as the sequence of values successive
`check_interrupted()` calls read (the UI task writes it concurrently; the
turn starts with `clear()`, so index 0 is the first read after that), and
the user's confirmation answers.  Console rendering (spinners, streaming
panels, the `looks_like_tool_call` display classifier, warnings) has no
effect on conversation state and is elided.  The `PlanManager` singleton's
`plan_mode_active` flag is toggled only by slash commands outside
`process_message`, so it is constant for the turn and carried in the
environment. -/

/-- External inputs of one `process_message` turn. -/
structure AgentEnv where
  chatResp : Nat → List ChatChunk
  summaryChunks : List ChatChunk
  countTokens : List Message → Nat
  max_tokens : Nat
  execTool : Json → List (String × Json) → ToolResult
  interruptReads : Nat → InterruptType
  confirmAnswers : Nat → Bool
  mode : PermissionMode
  settings : Settings
  plan : PlanManagerState
  cwdPath : List String

/-- `PlanManager().is_tool_allowed(tc.name)` with the raw (`Json`) name: a
non-string name is not a member of the read-only set. -/
def isToolAllowedJ (st : PlanManagerState) (name : Json) : Bool :=
  match name with
  | .str s => is_tool_allowed st s
  | _ => !st.plan_mode_active

/-- `self._requires_confirmation(tc.name, tc.arguments)` with the raw name:
every branch compares against string literals, so a non-string name falls
through to `False`. -/
def requiresConfirmationJ (mode : PermissionMode) (settings : Settings)
    (name : Json) (arguments : List (String × Json)) : Bool :=
  match name with
  | .str s => requires_confirmation mode settings s arguments
  | _ => false

/-- `self._get_tool_directory(tc.name, tc.arguments)` with the raw name
(non-string names reach the default branch). -/
def getToolDirectoryJ (cwdPath : List String) (name : Json)
    (arguments : List (String × Json)) : List String :=
  match name with
  | .str s => get_tool_directory cwdPath s arguments
  | _ => cwdPath

/-- Result of consuming one provider stream (the `async for chunk` loop). -/
structure StreamResult where
  response_content : String
  tool_calls : List ToolCall
  interrupted : Bool
  repetition_detected : Bool
  intIdx : Nat

/-- The streaming loop: per chunk, read the interrupt flag (stop consuming on
a non-NONE read, discarding the rest of the stream); accumulate content;
break early when the repetition heuristic fires (more than two `\x7b"name":`
or `"arguments"` occurrences once over 500 stripped characters — that
chunk's native tool calls are not collected, as in the source); extend the
native tool-call list.  Content-classification for display
(`looks_like_tool_call`) only affects rendering and is elided. -/
def consumeStream (reads : Nat → InterruptType) :
    List ChatChunk → String → List ToolCall → Nat → StreamResult
  | [], content, tcs, idx => ⟨content, tcs, false, false, idx⟩
  | chunk :: rest, content, tcs, idx =>
    if reads idx ≠ .NONE then ⟨content, tcs, true, false, idx + 1⟩
    else
      match chunk.content with
      | some t =>
        if t.isEmpty then consumeStream reads rest content (tcs ++ chunk.tool_calls) (idx + 1)
        else
          let content := content ++ t
          let stripped := pyStrip content.data
          if stripped.length > 500 ∧
              (pyCount (String.mk [obr] ++ "\"name\":").data stripped > 2 ∨
               pyCount "\"arguments\"".data stripped > 2) then
            ⟨content, tcs, false, true, idx + 1⟩
          else consumeStream reads rest content (tcs ++ chunk.tool_calls) (idx + 1)
      | none => consumeStream reads rest content (tcs ++ chunk.tool_calls) (idx + 1)

/-- Result of the per-call tool-execution loop. -/
structure ExecResult where
  messages : List Message
  approved : List (List String)
  interrupted : Bool
  intIdx : Nat
  confirmIdx : Nat

/-- The tool message appended when plan mode blocks a call. -/
def blockedToolMsg (name : Json) : Message :=
  { role := "tool",
    content := "Tool '" ++ pyStr name ++ "' is not allowed in plan mode. " ++
      "Please use create_plan to create a plan, then the user " ++
      "will /approve it before write operations can proceed." }

/-- The tool message carrying an execution result (`Error: …` on failure;
a `None` error renders as Python would). -/
def toolResultMsg (result : ToolResult) : Message :=
  { role := "tool",
    content := if result.success then result.output
      else "Error: " ++ result.error.getD "None" }

/-- The per-call loop (`for tc in tool_calls`): read the interrupt flag
(abort on non-NONE), apply the plan gate (append an explanatory tool message
and skip), apply the confirmation policy (a decline appends a refusal and
skips; an approval records the directory), execute the tool and append its
result message. -/
def execToolCalls (env : AgentEnv) :
    List ToolCall → List Message → List (List String) → Nat → Nat → ExecResult
  | [], msgs, appr, i, c => ⟨msgs, appr, false, i, c⟩
  | tc :: rest, msgs, appr, i, c =>
    if env.interruptReads i ≠ .NONE then ⟨msgs, appr, true, i + 1, c⟩
    else
      if ¬ isToolAllowedJ env.plan tc.name then
        execToolCalls env rest (msgs ++ [blockedToolMsg tc.name]) appr (i + 1) c
      else if requiresConfirmationJ env.mode env.settings tc.name tc.arguments ∧
          ¬ is_directory_approved appr (getToolDirectoryJ env.cwdPath tc.name tc.arguments) then
        if env.confirmAnswers c then
          let appr := approve_directory appr (getToolDirectoryJ env.cwdPath tc.name tc.arguments)
          let result := env.execTool tc.name tc.arguments
          execToolCalls env rest (msgs ++ [toolResultMsg result]) appr (i + 1) (c + 1)
        else
          execToolCalls env rest
            (msgs ++ [{ role := "tool", content := "User declined to execute this tool." }])
            appr (i + 1) (c + 1)
      else
        let result := env.execTool tc.name tc.arguments
        execToolCalls env rest (msgs ++ [toolResultMsg result]) appr (i + 1) c

/-- Result of the agentic loop. -/
structure LoopResult where
  messages : List Message
  approved : List (List String)
  iteration : Nat
  intIdx : Nat
  confirmIdx : Nat

/-- `max_iterations` (hardcoded in `process_message`). -/
def max_iterations : Nat := 10

/-- The corrective message appended on a truncated tool-call-shaped reply. -/
def retryPrompt : String :=
  "Your previous response was incomplete or truncated. " ++
  "Please provide a complete response - either respond with text " ++
  "explaining what you'll do, or use a tool with valid JSON."

/-- The post-stream resolution of one iteration (`agent.py` lines 177-195):
fall back to `extract_json_tool_call` on the accumulated content when no
native tool calls arrived (taking its remaining content, `""` for `None`),
then deduplicate the call list.  Returns the final
`(response_content, tool_calls)` pair of the iteration. -/
def iterationResolve (rc : String) (native : List ToolCall) : String × List ToolCall :=
  let extracted :=
    if ¬ rc.isEmpty ∧ native.isEmpty then
      let er := extract_json_tool_call rc.data
      if ¬ er.2.isEmpty then
        ((match er.1 with | some l => String.mk l | none => ""), er.2)
      else (rc, native)
    else (rc, native)
  (extracted.1, if ¬ extracted.2.isEmpty then dedup_tool_calls extracted.2 else extracted.2)

/-- The agentic `while iteration < max_iterations and not interrupted` loop.
`fuel` is `max_iterations - iteration`, so the guard `iteration <
max_iterations` is exactly `fuel > 0`; a detected interrupt returns
immediately (the Python flag re-checked by the `while` head).  Per
iteration: consume the stream; on interruption stop with the accumulated
content discarded; otherwise fall back to `extract_json_tool_call` when no
native calls arrived, deduplicate, and either execute the calls and
continue, retry on truncated tool-call-shaped content, or append the final
assistant message and stop. -/
def agent_loop (env : AgentEnv) :
    Nat → Nat → List Message → List (List String) → Nat → Nat → LoopResult
  | 0, iteration, msgs, appr, i, c => ⟨msgs, appr, iteration, i, c⟩
  | fuel + 1, iteration, msgs, appr, i, c =>
    let iteration := iteration + 1
    let sr := consumeStream env.interruptReads (env.chatResp iteration) "" [] i
    if sr.interrupted then ⟨msgs, appr, iteration, sr.intIdx, c⟩
    else
      let rt := iterationResolve sr.response_content sr.tool_calls
      let response_content := rt.1
      let tool_calls := rt.2
      if ¬ tool_calls.isEmpty then
        let msgs := msgs ++
          [{ role := "assistant", content := response_content, tool_calls := some tool_calls }]
        let er := execToolCalls env tool_calls msgs appr sr.intIdx c
        if er.interrupted then ⟨er.messages, er.approved, iteration, er.intIdx, er.confirmIdx⟩
        else agent_loop env fuel iteration er.messages er.approved er.intIdx er.confirmIdx
      else
        if ¬ response_content.isEmpty then
          let stripped := pyStrip response_content.data
          let is_truncated_json :=
            stripped.head? = some obr ∧
            (pyContains "\"name\"".data stripped ∨ pyContains "\"name".data stripped ∨
             pyContains "name\":".data stripped) ∧
            ¬ (stripped.getLast? = some cbr)
          let is_very_short := stripped.length < 100 ∧ stripped.head? = some obr
          if is_truncated_json ∨ is_very_short then
            let msgs := msgs ++ [{ role := "assistant", content := response_content },
              { role := "user", content := retryPrompt }]
            agent_loop env fuel iteration msgs appr sr.intIdx c
          else
            ⟨msgs ++ [{ role := "assistant", content := response_content }], appr, iteration,
              sr.intIdx, c⟩
        else ⟨msgs, appr, iteration, sr.intIdx, c⟩

/-- Result of one whole `process_message` turn. -/
structure TurnResult where
  messages : List Message
  approved : List (List String)
  iteration : Nat
  cap_warning : Bool
  intIdx : Nat
  confirmIdx : Nat

/-- `Agent.process_message(user_input)`: clear the interrupt (the read
oracle starts at index 0), summarize when over the token threshold, append
the user message, run the agentic loop, and report the cap-reached warning
when `iteration >= max_iterations`. -/
def process_message (env : AgentEnv) (msgs0 : List Message)
    (approved0 : List (List String)) (user_input : String) : TurnResult :=
  let msgs := if should_summarize env.countTokens env.max_tokens msgs0 then
      summarize_conversation env.summaryChunks msgs0 4
    else msgs0
  let msgs := msgs ++ [{ role := "user", content := user_input }]
  let r := agent_loop env max_iterations 0 msgs approved0 0 0
  ⟨r.messages, r.approved, r.iteration, decide (r.iteration ≥ max_iterations), r.intIdx,
    r.confirmIdx⟩

/-! ## Derived views used to state claims about the loop -/

/-- The stream-consumption result when no interrupt fires: content,
collected native tool calls, repetition flag.  `consumeStream` coincides
with this whenever every read is `NONE` (proved below). -/
def pureStream : List ChatChunk → String → List ToolCall → String × List ToolCall × Bool
  | [], content, tcs => (content, tcs, false)
  | chunk :: rest, content, tcs =>
    match chunk.content with
    | some t =>
      if t.isEmpty then pureStream rest content (tcs ++ chunk.tool_calls)
      else
        let content := content ++ t
        let stripped := pyStrip content.data
        if stripped.length > 500 ∧
            (pyCount (String.mk [obr] ++ "\"name\":").data stripped > 2 ∨
             pyCount "\"arguments\"".data stripped > 2) then
          (content, tcs, true)
        else pureStream rest content (tcs ++ chunk.tool_calls)
    | none => pureStream rest content (tcs ++ chunk.tool_calls)

/-- The tool-call list iteration `n` of the loop ends up executing (native
calls, else extraction fallback, then deduplication), assuming the stream is
not interrupted. -/
def iterationToolCalls (env : AgentEnv) (n : Nat) : List ToolCall :=
  (iterationResolve (pureStream (env.chatResp n) "" []).1
    (pureStream (env.chatResp n) "" []).2.1).2

/-! ## Concrete instances for witnesses and counterexamples -/

/-- A demonstration native tool call. -/
def tcRead : ToolCall := { name := Json.str "read_file", arguments := [("path", Json.str "/tmp/x")] }

/-- A demonstration system message. -/
def msgSys : Message := { role := "system", content := "sys" }

/-- A turn environment whose model returns a native tool call on every
iteration and never a final answer, with no interrupts and auto-accepted
permissions. -/
def envAlwaysTools : AgentEnv :=
  { chatResp := fun _ => [{ content := none, tool_calls := [tcRead], done := true }],
    summaryChunks := [],
    countTokens := fun _ => 0,
    max_tokens := 16384,
    execTool := fun _ _ => ToolResult.ok "ok" [],
    interruptReads := fun _ => .NONE,
    confirmAnswers := fun _ => true,
    mode := .AUTO_ACCEPT,
    settings := {},
    plan := {},
    cwdPath := ["home"] }

/-- Like `envAlwaysTools`, but iteration 2 streams prose and the interrupt
flag reads `SOFT` at the check preceding iteration 2's first fragment (read
index 2: index 0 is iteration 1's chunk check, index 1 the check before its
tool call). -/
def envInterruptIter2 : AgentEnv :=
  { envAlwaysTools with
    chatResp := fun i => if i = 1 then [{ content := none, tool_calls := [tcRead], done := true }]
      else [{ content := some "Hello", tool_calls := [], done := false }],
    interruptReads := fun n => if n = 2 then .SOFT else .NONE }

/-- Like `envAlwaysTools`, but every interrupt read is `SOFT` (signalled
before the first fragment of the turn is consumed). -/
def envInterruptFirst : AgentEnv :=
  { envAlwaysTools with interruptReads := fun _ => .SOFT }

/-! # Theorems -/

set_option maxRecDepth 40000

mutual

/-- `Json.beq` is reflexive. -/
theorem Json.beq_refl : (a : Json) → Json.beq a a = true
  | .null => rfl
  | .bool _ => by simp [Json.beq]
  | .num _ => by simp [Json.beq]
  | .str _ => by simp [Json.beq]
  | .arr xs => by simpa [Json.beq] using Json.beqList_refl xs
  | .obj xs => by simpa [Json.beq] using Json.beqPairs_refl xs

/-- `Json.beqList` is reflexive. -/
theorem Json.beqList_refl : (xs : List Json) → Json.beqList xs xs = true
  | [] => rfl
  | x :: xs => by simp [Json.beqList, Json.beq_refl x, Json.beqList_refl xs]

/-- `Json.beqPairs` is reflexive. -/
theorem Json.beqPairs_refl : (xs : List (String × Json)) → Json.beqPairs xs xs = true
  | [] => rfl
  | (k, v) :: xs => by simp [Json.beqPairs, Json.beq_refl v, Json.beqPairs_refl xs]

end

/-- `keyBeq` is reflexive. -/
theorem keyBeq_refl (k : Json × String) : keyBeq k k = true := by
  simp [keyBeq, Json.beq_refl]

/-- C9: `should_summarize` returns true exactly when the pluggable token
count strictly exceeds `threshold·max` with the default threshold 0.75
(`4·used > 3·max` is `used > 0.75·max` over the rationals); at the boundary
with `max = 100`, a used count of 76 gives true and 75 gives false. -/
theorem C9_should_summarize_boundary (count : List Message → Nat) (max_tokens : Nat)
    (messages : List Message) :
    (should_summarize count max_tokens messages = true ↔ 4 * count messages > 3 * max_tokens) ∧
    should_summarize (fun _ => 76) 100 messages = true ∧
    should_summarize (fun _ => 75) 100 messages = false := by
  refine ⟨?_, rfl, rfl⟩
  unfold should_summarize contextThreshold
  rw [decide_eq_true_eq, gt_iff_lt, Nat.div_lt_iff_lt_mul (by norm_num : (0 : Nat) < 4)]
  omega

/-- C6: `is_tool_allowed` is unconditionally true when plan mode is
inactive; when active it is true exactly for members of the fixed
`READONLY_TOOLS` set (which contains the plan-creation tool `create_plan`),
and false for every other name. -/
theorem C6_is_tool_allowed (st : PlanManagerState) (name : String) :
    (st.plan_mode_active = false → is_tool_allowed st name = true) ∧
    (st.plan_mode_active = true →
      (is_tool_allowed st name = true ↔ name ∈ READONLY_TOOLS)) := by
  constructor
  · intro h; simp [is_tool_allowed, h]
  · intro h
    simp only [is_tool_allowed, h, Bool.not_true, Bool.false_eq_true, if_false]
    exact List.elem_iff

/-- Witness for `C6_is_tool_allowed` at plan mode active and the
plan-creation tool. -/
theorem C6_is_tool_allowed_witness :
    is_tool_allowed { plan_mode_active := true } "create_plan" = true :=
  ((C6_is_tool_allowed { plan_mode_active := true } "create_plan").2 rfl).mpr
    (by simp [READONLY_TOOLS])

/-- C3 counterexample: `approve_plan` does not require PENDING_APPROVAL.
After `create_plan` and a first `approve_plan` the current plan's status is
APPROVED, yet a second `approve_plan` still succeeds (returns `True`),
refuting "approve() succeeds only when the current plan is in state
PENDING_APPROVAL". -/
theorem C3_counterexample :
    (approve_plan (approve_plan (create_plan PlanManagerState.init "g" []).2).2).1 = true ∧
    ((approve_plan (create_plan PlanManagerState.init "g" []).2).2).current_plan =
      some { goal := "g", steps := [], status := .approved } ∧
    PlanStatus.approved ≠ PlanStatus.pending_approval := by
  exact ⟨rfl, rfl, by decide⟩

/-- C3 (amended): `approve_plan` succeeds exactly when a current plan
exists, whatever its status, transitioning it to APPROVED and clearing
`plan_mode_active`; with no current plan it returns failure and leaves the
state unchanged. -/
theorem C3_approve_plan (st : PlanManagerState) :
    ((approve_plan st).1 = true ↔ st.current_plan.isSome) ∧
    (st.current_plan = none → (approve_plan st).2 = st) ∧
    (∀ p, st.current_plan = some p →
      (approve_plan st).2 =
        { plan_mode_active := false, current_plan := some { p with status := .approved } }) := by
  cases h : st.current_plan with
  | none => simp [approve_plan, h]
  | some p => simp [approve_plan, h]

/-- Witness for `C3_approve_plan` on a concrete pending plan. -/
theorem C3_approve_plan_witness :
    (approve_plan ⟨true, some { goal := "g", steps := [], status := .pending_approval }⟩).2 =
      ⟨false, some { goal := "g", steps := [], status := .approved }⟩ :=
  (C3_approve_plan _).2.2 _ rfl

/-- C5: after approving directory `a`, a directory `d` is approved exactly
when `a` is a path-prefix of `d` (i.e. `d` equals or descends from `a`) or
`d` was approved before; descendants of `a` (including `a`) become approved;
a strict ancestor of `a` not previously approved stays unapproved (no upward
transitivity); previously approved directories stay approved (the set is
append-only); and approval holds exactly when some member of the set is a
prefix of the queried directory. -/
theorem C5_directory_approval (approved : List (List String)) (a d p : List String) :
    (is_directory_approved (approve_directory approved a) d =
      (a.isPrefixOf d || is_directory_approved approved d)) ∧
    (a.isPrefixOf d = true → is_directory_approved (approve_directory approved a) d = true) ∧
    (p.isPrefixOf a = true → p ≠ a → is_directory_approved approved p = false →
      is_directory_approved (approve_directory approved a) p = false) ∧
    (is_directory_approved approved d = true →
      is_directory_approved (approve_directory approved a) d = true) ∧
    (is_directory_approved approved d = true ↔ ∃ b ∈ approved, b.isPrefixOf d = true) := by
  refine ⟨rfl, ?_, ?_, ?_, ?_⟩
  · intro h
    simp [is_directory_approved, approve_directory, h]
  · intro hp hne h0
    have hap : a.isPrefixOf p = false := by
      by_contra hab
      have hab' : a.isPrefixOf p = true := by
        cases hv : a.isPrefixOf p with
        | true => rfl
        | false => exact absurd hv hab
      have h1 : p <+: a := List.isPrefixOf_iff_prefix.mp hp
      have h2 : a <+: p := List.isPrefixOf_iff_prefix.mp hab'
      have : p = a := h1.eq_of_length (Nat.le_antisymm h1.length_le h2.length_le)
      exact hne this
    simp [is_directory_approved, approve_directory, hap, h0] at *
    exact h0
  · intro h
    simp only [is_directory_approved, approve_directory, List.any_cons] at *
    simp [h]
  · simp [is_directory_approved, List.any_eq_true]

/-- Witness for `C5_directory_approval`: approving `/a` approves `/a/b` but
not `/`. -/
theorem C5_directory_approval_witness :
    is_directory_approved (approve_directory [] ["a"]) ["a", "b"] = true ∧
    is_directory_approved (approve_directory [] ["a"]) [] = false :=
  ⟨(C5_directory_approval [] ["a"] ["a", "b"] []).2.1 (by decide),
   (C5_directory_approval [] ["a"] ["a", "b"] []).2.2.1 (by decide) (by decide) rfl⟩

/-- C10: a subprocess that completes within the timeout with non-zero exit
code yields a *successful* `ToolResult` whose output is prefixed with
`[Exit code: N]`; a failed result arises only from a blocked command, a
timeout, a missing working directory, a permission error, or an execution
exception. -/
theorem C10_bash_execute (command : String) (wd : Option String) (tmo : Nat)
    (cwd stdout stderr : String) (rc : Int) :
    (is_blocked command = false → rc ≠ 0 →
      (bash_execute command wd tmo cwd (.completed stdout stderr rc)).success = true ∧
      ∃ rest, (bash_execute command wd tmo cwd (.completed stdout stderr rc)).output =
        "[Exit code: " ++ toString rc ++ "]\n\n" ++ rest) ∧
    (∀ outcome : SubprocessOutcome,
      (bash_execute command wd tmo cwd outcome).success = false →
      is_blocked command = true ∨ outcome = .timedOut ∨ outcome = .workingDirMissing ∨
        outcome = .permissionDenied ∨ ∃ m, outcome = .execError m) := by
  constructor
  · intro hb hrc
    simp only [bash_execute, hb, Bool.false_eq_true, if_false, if_neg hrc]
    exact ⟨rfl, ⟨_, rfl⟩⟩
  · intro outcome hfail
    cases hb : is_blocked command with
    | true => exact Or.inl rfl
    | false =>
      cases outcome with
      | completed o e r =>
        exfalso
        simp only [bash_execute, hb, Bool.false_eq_true, if_false] at hfail
        by_cases hr : r = 0
        · simp [hr, ToolResult.ok] at hfail
        · simp [hr, ToolResult.ok] at hfail
      | timedOut => exact Or.inr (Or.inl rfl)
      | workingDirMissing => exact Or.inr (Or.inr (Or.inl rfl))
      | permissionDenied => exact Or.inr (Or.inr (Or.inr (Or.inl rfl)))
      | execError m => exact Or.inr (Or.inr (Or.inr (Or.inr ⟨m, rfl⟩)))

/-- Witness for `C10_bash_execute`: `false`-style command exiting 1. -/
theorem C10_bash_execute_witness :
    (bash_execute "false" none 120 "/home" (.completed "" "" 1)).success = true :=
  ((C10_bash_execute "false" none 120 "/home" "" "" 1).1 rfl (by decide)).1

/-- Shape of a compaction that actually compacts: with more than `1+2K+2`
messages and `K ≥ 1`, the result is the system message, the summary message,
and the last `2K` input messages. -/
theorem summarize_conversation_eq (chunks : List ChatChunk) (m0 : Message)
    (rest : List Message) (K : Nat) (hK : K ≠ 0)
    (h : ¬ (m0 :: rest).length ≤ 1 + K * 2 + 2) :
    summarize_conversation chunks (m0 :: rest) K =
      m0 :: { role := "system",
              content := "[Previous conversation summary]\n" ++ summaryFromChunks chunks ++
                "\n[End of summary]" } ::
        (m0 :: rest).drop ((m0 :: rest).length - K * 2) := by
  have hr : K * 2 ≠ 0 := by omega
  have hlen : 1 + K * 2 + 2 < (m0 :: rest).length := not_le.mp h
  have holdlen : (((m0 :: rest).take ((m0 :: rest).length - K * 2)).drop 1).length =
      (m0 :: rest).length - K * 2 - 1 := by
    rw [List.length_drop, List.length_take]
    omega
  unfold summarize_conversation
  simp only [if_neg h, if_neg hr]
  rw [if_neg (by rw [holdlen]; omega)]

/-- Dropping all but the last `n` elements of `x :: y :: l` when `l` has
exactly `n` elements leaves `l`. -/
theorem drop_two_aux {α : Type} (x y : α) (l : List α) (n : Nat) (h : l.length = n) :
    (x :: y :: l).drop ((x :: y :: l).length - n) = l := by
  simp only [List.length_cons, h]
  have h2 : n + 1 + 1 - n = 2 := by omega
  rw [h2]
  rfl

/-- C4: for every configured `keep_recent = K` (default 4) and every
conversation, compaction is a no-op when `len(messages) ≤ 1 + 2K + 2`;
in every case the returned conversation keeps `message[0]` (the system
message) and the last `2K` input messages identical to the input's.  The
embedding is purely functional, matching the code's construction of a fresh
list (the source never mutates the input list). -/
theorem C4_summarize_conversation (chunks : List ChatChunk) (msgs : List Message) (K : Nat) :
    (msgs.length ≤ 1 + K * 2 + 2 → summarize_conversation chunks msgs K = msgs) ∧
    (summarize_conversation chunks msgs K).head? = msgs.head? ∧
    (summarize_conversation chunks msgs K).drop
        ((summarize_conversation chunks msgs K).length - K * 2) =
      msgs.drop (msgs.length - K * 2) := by
  by_cases hlen : msgs.length ≤ 1 + K * 2 + 2
  · have h : summarize_conversation chunks msgs K = msgs := by
      unfold summarize_conversation
      rw [if_pos hlen]
    exact ⟨fun _ => h, by rw [h], by rw [h]⟩
  · by_cases hK : K = 0
    · subst hK
      have h : summarize_conversation chunks msgs 0 = msgs := by
        unfold summarize_conversation
        rw [if_neg hlen]
        norm_num
      exact ⟨fun hc => absurd hc hlen, by rw [h], by rw [h]⟩
    · obtain ⟨m0, rest, rfl⟩ : ∃ m0 rest, msgs = m0 :: rest := by
        cases msgs with
        | nil => exact absurd (by simp) hlen
        | cons a l => exact ⟨a, l, rfl⟩
      have h := summarize_conversation_eq chunks m0 rest K hK hlen
      refine ⟨fun hc => absurd hc hlen, by rw [h]; rfl, ?_⟩
      rw [h]
      have hlen' : 1 + K * 2 + 2 < (m0 :: rest).length := not_le.mp hlen
      have hdl : ((m0 :: rest).drop ((m0 :: rest).length - K * 2)).length = K * 2 := by
        rw [List.length_drop]
        omega
      exact drop_two_aux _ _ _ _ hdl

/-- Witness for `C4_summarize_conversation`: a 1-message conversation with
the default `K = 4` is left untouched. -/
theorem C4_summarize_conversation_witness :
    summarize_conversation [] [msgSys] 4 = [msgSys] :=
  (C4_summarize_conversation [] [msgSys] 4).1 (by decide)

/-! ### Order lemmas for the Python `sorted` model -/

/-- `strLtB` is transitive. -/
theorem strLtB_trans : ∀ {a b c : List Char},
    strLtB a b = true → strLtB b c = true → strLtB a c = true
  | [], [], _, h1, _ => by simp [strLtB] at h1
  | [], _ :: _, [], _, h2 => by simp [strLtB] at h2
  | [], _ :: _, _ :: _, _, _ => by simp [strLtB]
  | _ :: _, [], _, h1, _ => by simp [strLtB] at h1
  | _ :: _, _ :: _, [], _, h2 => by simp [strLtB] at h2
  | a :: as, b :: bs, c :: cs, h1, h2 => by
    simp only [strLtB, Bool.or_eq_true, Bool.and_eq_true, decide_eq_true_eq, beq_iff_eq] at *
    rcases h1 with h1 | ⟨rfl, h1⟩
    · rcases h2 with h2 | ⟨rfl, h2⟩
      · exact Or.inl (lt_trans h1 h2)
      · exact Or.inl h1
    · rcases h2 with h2 | ⟨rfl, h2⟩
      · exact Or.inl h2
      · exact Or.inr ⟨rfl, strLtB_trans h1 h2⟩

/-- `strLtB` is asymmetric. -/
theorem strLtB_asymm : ∀ {a b : List Char}, strLtB a b = true → strLtB b a = false
  | [], [], h => by simp [strLtB] at h
  | [], _ :: _, _ => by simp [strLtB]
  | _ :: _, [], h => by simp [strLtB] at h
  | a :: as, b :: bs, h => by
    simp only [strLtB, Bool.or_eq_true, Bool.and_eq_true, decide_eq_true_eq, beq_iff_eq] at h ⊢
    rcases h with h | ⟨rfl, h⟩
    · simp only [Bool.or_eq_false_iff, Bool.and_eq_false_iff, decide_eq_false_iff_not, beq_eq_false_iff_ne]
      exact ⟨not_lt_of_lt h, Or.inl (ne_of_gt h)⟩
    · simp only [Bool.or_eq_false_iff, Bool.and_eq_false_iff, decide_eq_false_iff_not, beq_eq_false_iff_ne]
      refine ⟨lt_irrefl a, Or.inr ?_⟩
      exact strLtB_asymm h

/-- `strLtB` is total (up to equality). -/
theorem strLtB_total : ∀ (a b : List Char), strLtB a b = true ∨ a = b ∨ strLtB b a = true
  | [], [] => Or.inr (Or.inl rfl)
  | [], _ :: _ => Or.inl (by simp [strLtB])
  | _ :: _, [] => Or.inr (Or.inr (by simp [strLtB]))
  | a :: as, b :: bs => by
    rcases lt_trichotomy a b with h | rfl | h
    · exact Or.inl (by simp [strLtB, h])
    · rcases strLtB_total as bs with h' | rfl | h'
      · exact Or.inl (by simp [strLtB, h'])
      · exact Or.inr (Or.inl rfl)
      · exact Or.inr (Or.inr (by simp [strLtB, h']))
    · exact Or.inr (Or.inr (by simp [strLtB, h]))

/-- `itemLe` is total. -/
theorem itemLe_total (p q : String × Json) : itemLe p q = true ∨ itemLe q p = true := by
  rcases strLtB_total p.1.data q.1.data with h | h | h
  · exact Or.inl (by simp [itemLe, h])
  · have : p.1 = q.1 := String.ext h
    exact Or.inl (by simp [itemLe, this])
  · exact Or.inr (by simp [itemLe, h])

/-- `itemLe` is transitive. -/
theorem itemLe_trans {p q r : String × Json} (h1 : itemLe p q = true) (h2 : itemLe q r = true) :
    itemLe p r = true := by
  simp only [itemLe, Bool.or_eq_true, beq_iff_eq] at *
  rcases h1 with h1 | h1
  · rcases h2 with h2 | h2
    · exact Or.inl (strLtB_trans h1 h2)
    · exact Or.inl (h2 ▸ h1)
  · rcases h2 with h2 | h2
    · exact Or.inl (h1 ▸ h2)
    · exact Or.inr (h1.trans h2)

/-- Two items each `itemLe` the other share their key. -/
theorem itemLe_antisymm_keys {p q : String × Json} (h1 : itemLe p q = true)
    (h2 : itemLe q p = true) : p.1 = q.1 := by
  simp only [itemLe, Bool.or_eq_true, beq_iff_eq] at *
  rcases h1 with h1 | h1
  · rcases h2 with h2 | h2
    · exact absurd h1 (by simp [strLtB_asymm h2])
    · exact h2.symm
  · exact h1

/-- Inserting two items with distinct keys commutes. -/
theorem insertLe_comm {x y : String × Json} (hne : x.1 ≠ y.1) :
    ∀ l, insertLe itemLe x (insertLe itemLe y l) = insertLe itemLe y (insertLe itemLe x l) := by
  have hone : (itemLe x y = true ∧ itemLe y x = false) ∨
      (itemLe y x = true ∧ itemLe x y = false) := by
    rcases itemLe_total x y with h | h
    · cases hyx : itemLe y x with
      | false => exact Or.inl ⟨h, rfl⟩
      | true => exact absurd (itemLe_antisymm_keys h hyx) hne
    · cases hxy : itemLe x y with
      | false => exact Or.inr ⟨h, rfl⟩
      | true => exact absurd (itemLe_antisymm_keys hxy h) hne
  -- by symmetry it suffices to handle the first disjunct
  have main : ∀ (x y : String × Json), itemLe x y = true → itemLe y x = false →
      ∀ l, insertLe itemLe x (insertLe itemLe y l) = insertLe itemLe y (insertLe itemLe x l) := by
    intro x y hxy hyx l
    induction l with
    | nil => simp [insertLe, hxy, hyx]
    | cons z zs ih =>
      by_cases hyz : itemLe y z = true
      · have hxz : itemLe x z = true := itemLe_trans hxy hyz
        simp [insertLe, hxy, hyx, hyz, hxz]
      · have hyz' : itemLe y z = false := by
          cases h : itemLe y z with
          | false => rfl
          | true => exact absurd h hyz
        by_cases hxz : itemLe x z = true
        · simp [insertLe, hxy, hyx, hyz', hxz]
        · have hxz' : itemLe x z = false := by
            cases h : itemLe x z with
            | false => rfl
            | true => exact absurd h hxz
          simp only [insertLe, hyz', hxz', Bool.false_eq_true, if_false]
          rw [ih]
  rcases hone with ⟨h1, h2⟩ | ⟨h1, h2⟩
  · exact main x y h1 h2
  · exact fun l => (main y x h1 h2 l).symm

/-- `sortLe itemLe` is invariant under permutations with distinct keys
(Python `sorted` of a dict's items does not depend on insertion order). -/
theorem sortLe_eq_of_perm : ∀ {l₁ l₂ : List (String × Json)}, l₁.Perm l₂ →
    (l₁.map Prod.fst).Nodup → sortLe itemLe l₁ = sortLe itemLe l₂ := by
  intro l₁ l₂ hperm
  induction hperm with
  | nil => intro _; rfl
  | cons x h ih =>
    intro hnd
    simp only [List.map_cons, List.nodup_cons] at hnd
    simp only [sortLe, ih hnd.2]
  | swap x y l =>
    intro hnd
    simp only [List.map_cons, List.nodup_cons, List.mem_cons, List.mem_map] at hnd
    have hne : y.1 ≠ x.1 := fun h => hnd.1 (Or.inl h)
    simp only [sortLe]
    exact insertLe_comm hne (sortLe itemLe l)
  | trans h₁ h₂ ih₁ ih₂ =>
    intro hnd
    have hnd₂ := ((h₁.map Prod.fst).nodup_iff).mp hnd
    exact (ih₁ hnd).trans (ih₂ hnd₂)

/-! ### `pyDictItems` on dicts with distinct keys -/

/-- Lookup misses when the key is absent. -/
theorem pyDictGet_eq_none {l : List (String × Json)} {k : String}
    (h : k ∉ l.map Prod.fst) : pyDictGet l k = none := by
  unfold pyDictGet
  rw [List.find?_eq_none.mpr, Option.map_none']
  intro x hx
  simp only [List.mem_reverse] at hx
  simp only [decide_eq_true_eq]
  intro hk
  exact h (List.mem_map.mpr ⟨x, hx, hk⟩)

/-- With distinct keys, `dict.items()` is the member list itself. -/
theorem pyDictItemsAux_of_nodup : ∀ (f : Nat) (l : List (String × Json)),
    l.length ≤ f → (l.map Prod.fst).Nodup → pyDictItemsAux f l = l
  | 0, [], _, _ => rfl
  | 0, _ :: _, h, _ => by simp at h
  | _ + 1, [], _, _ => rfl
  | f + 1, (k, v) :: rest, h, hnd => by
    simp only [List.map_cons, List.nodup_cons, List.mem_map] at hnd
    have hget : pyDictGet rest k = none :=
      pyDictGet_eq_none (fun hm => hnd.1 (List.mem_map.mp hm))
    have hfilter : rest.filter (fun p => ¬ p.1 = k) = rest := by
      rw [List.filter_eq_self]
      intro a ha
      simp only [decide_eq_true_eq]
      intro hk
      exact hnd.1 ⟨a, ha, hk⟩
    simp only [pyDictItemsAux, hget, Option.getD_none, Option.getD_some, hfilter]
    rw [pyDictItemsAux_of_nodup f rest (by simpa using Nat.lt_succ_iff.mp (Nat.lt_of_lt_of_le (Nat.lt_succ_of_le (Nat.le_refl _)) (by simpa using h))) hnd.2]

/-- `pyDictItems` with distinct keys. -/
theorem pyDictItems_of_nodup {l : List (String × Json)} (hnd : (l.map Prod.fst).Nodup) :
    pyDictItems l = l :=
  pyDictItemsAux_of_nodup l.length l (Nat.le_refl _) hnd

/-- Invocations with the same name and the same argument dict (up to member
order, keys unique) share their deduplication key. -/
theorem dedup_key_eq {a b : ToolCall} (hname : a.name = b.name)
    (hperm : a.arguments.Perm b.arguments)
    (hnodup : (a.arguments.map Prod.fst).Nodup) : dedup_key a = dedup_key b := by
  have hnodupb : (b.arguments.map Prod.fst).Nodup :=
    ((hperm.map Prod.fst).nodup_iff).mp hnodup
  have hemp : a.arguments.isEmpty = b.arguments.isEmpty := by
    have hl := hperm.length_eq
    cases ha : a.arguments <;> cases hb : b.arguments <;> rw [ha, hb] at hl <;> simp_all
  unfold dedup_key
  rw [hname, hemp, pyDictItems_of_nodup hnodup, pyDictItems_of_nodup hnodupb,
    sortLe_eq_of_perm hperm hnodup]

/-! ### Deduplication lemmas -/

/-- The deduplicated list is a sublist of the input (first-occurrence order
preserved). -/
theorem dedupAux_sublist : ∀ (l : List ToolCall) (seen : List (Json × String)),
    (dedupAux l seen).Sublist l
  | [], _ => List.Sublist.refl _
  | tc :: rest, seen => by
    simp only [dedupAux]
    by_cases h : seen.any (keyBeq (dedup_key tc)) = true
    · rw [if_pos h]
      exact (dedupAux_sublist rest seen).cons tc
    · rw [if_neg h]
      exact (dedupAux_sublist rest _).cons₂ tc

/-- Once a key is in `seen`, an occurrence carrying it is dropped without
affecting the rest of the run. -/
theorem dedupAux_skip (b : ToolCall) : ∀ (l2 l3 : List ToolCall) (seen : List (Json × String)),
    seen.any (keyBeq (dedup_key b)) = true →
    dedupAux (l2 ++ b :: l3) seen = dedupAux (l2 ++ l3) seen
  | [], l3, seen, h => by simp only [List.nil_append, dedupAux, h, if_pos]
  | tc :: l2, l3, seen, h => by
    simp only [List.cons_append, dedupAux, List.append_eq]
    by_cases hm : seen.any (keyBeq (dedup_key tc)) = true
    · rw [if_pos hm, if_pos hm]
      exact dedupAux_skip b l2 l3 seen h
    · rw [if_neg hm, if_neg hm]
      have h' : (dedup_key tc :: seen).any (keyBeq (dedup_key b)) = true := by
        simp only [List.any_cons, h, Bool.or_true]
      rw [dedupAux_skip b l2 l3 _ h']

/-- Dropping a later occurrence whose key equals an earlier element's key
does not change the deduplicated list. -/
theorem dedupAux_dup {a b : ToolCall} (hk : dedup_key a = dedup_key b) :
    ∀ (l1 l2 l3 : List ToolCall) (seen : List (Json × String)),
    dedupAux (l1 ++ a :: l2 ++ b :: l3) seen = dedupAux (l1 ++ a :: l2 ++ l3) seen
  | [], l2, l3, seen => by
    simp only [List.nil_append, dedupAux, List.append_eq]
    by_cases hm : seen.any (keyBeq (dedup_key a)) = true
    · rw [if_pos hm, if_pos hm]
      exact dedupAux_skip b l2 l3 seen (hk ▸ hm)
    · rw [if_neg hm, if_neg hm]
      have h' : (dedup_key a :: seen).any (keyBeq (dedup_key b)) = true := by
        simp only [List.any_cons, hk, keyBeq_refl, Bool.true_or]
      rw [dedupAux_skip b l2 l3 _ h']
  | tc :: l1, l2, l3, seen => by
    simp only [List.cons_append, dedupAux, List.append_eq]
    by_cases hm : seen.any (keyBeq (dedup_key tc)) = true
    · rw [if_pos hm, if_pos hm, dedupAux_dup hk l1 l2 l3 seen]
    · rw [if_neg hm, if_neg hm, dedupAux_dup hk l1 l2 l3 _]

/-- C2 counterexample: `extract_json_tool_call` itself does *not*
deduplicate — two identical `{"name":"t","arguments":{}}` objects in the
content yield two identical invocations from the extractor, refuting
"deduplication is part of the extraction step (ToolInvocationExtractor) on
its output list" (the deduplication lives in `Agent.process_message`). -/
theorem C2_counterexample :
    (extract_json_tool_call
      ("\x7b\"name\":\"t\",\"arguments\":\x7b\x7d\x7d \x7b\"name\":\"t\",\"arguments\":\x7b\x7d\x7d").data).2 =
      [{ name := Json.str "t", arguments := [] }, { name := Json.str "t", arguments := [] }] ∧
    ([{ name := Json.str "t", arguments := [] }, { name := Json.str "t", arguments := [] }] :
        List ToolCall) ≠ [{ name := Json.str "t", arguments := [] }] := by
  refine ⟨rfl, fun h => ?_⟩
  simpa using congrArg List.length h

/-- C2 (amended): the deduplication applied by the agent loop
(`Agent.process_message`) to the combined tool-call list — which includes the
extractor's output — removes a later invocation whose name and argument
mapping (up to member order, keys unique) equal an earlier one's, keeping the
first occurrence, and the result is a sublist of the input, so the order of
first occurrences is preserved. -/
theorem C2_dedup_agent (l1 l2 l3 : List ToolCall) (a b : ToolCall)
    (hname : a.name = b.name) (hperm : a.arguments.Perm b.arguments)
    (hnodup : (a.arguments.map Prod.fst).Nodup) :
    dedup_tool_calls (l1 ++ a :: l2 ++ b :: l3) = dedup_tool_calls (l1 ++ a :: l2 ++ l3) ∧
    (dedup_tool_calls (l1 ++ a :: l2 ++ b :: l3)).Sublist (l1 ++ a :: l2 ++ b :: l3) :=
  ⟨dedupAux_dup (dedup_key_eq hname hperm hnodup) l1 l2 l3 [],
   dedupAux_sublist _ []⟩

/-- Witness for `C2_dedup_agent`: a literally duplicated call collapses to
its first occurrence. -/
theorem C2_dedup_agent_witness :
    dedup_tool_calls [tcRead, tcRead] = dedup_tool_calls [tcRead] :=
  (C2_dedup_agent [] [] [] tcRead tcRead rfl (List.Perm.refl _) (by decide)).1

/-! ### Loop lemmas for C7 and C8 -/

/-- When every interrupt read is `NONE`, stream consumption never reports an
interruption and computes exactly the `pureStream` view (the interrupt index
advancing by the number of checks performed). -/
theorem consumeStream_of_none {reads : Nat → InterruptType} (h : ∀ k, reads k = .NONE) :
    ∀ (chunks : List ChatChunk) (content : String) (tcs : List ToolCall) (idx : Nat),
    ∃ d, consumeStream reads chunks content tcs idx =
      ⟨(pureStream chunks content tcs).1, (pureStream chunks content tcs).2.1, false,
       (pureStream chunks content tcs).2.2, idx + d⟩
  | [], content, tcs, idx => ⟨0, by simp [consumeStream, pureStream]⟩
  | ⟨copt, ctc, cdone⟩ :: rest, content, tcs, idx => by
    have hni : ¬ (reads idx ≠ InterruptType.NONE) := by simp [h idx]
    cases copt with
    | none =>
      simp only [consumeStream, pureStream, if_neg hni]
      obtain ⟨d, hd⟩ := consumeStream_of_none h rest content (tcs ++ ctc) (idx + 1)
      exact ⟨1 + d, by rw [hd, Nat.add_assoc]⟩
    | some t =>
      by_cases ht : t.isEmpty = true
      · simp only [consumeStream, pureStream, if_neg hni, if_pos ht]
        obtain ⟨d, hd⟩ := consumeStream_of_none h rest content (tcs ++ ctc) (idx + 1)
        exact ⟨1 + d, by rw [hd, Nat.add_assoc]⟩
      · simp only [consumeStream, pureStream, if_neg hni, if_neg ht]
        split_ifs with hrep
        · exact ⟨1, rfl⟩
        · obtain ⟨d, hd⟩ := consumeStream_of_none h rest (content ++ t) (tcs ++ ctc) (idx + 1)
          exact ⟨1 + d, by rw [hd, Nat.add_assoc]⟩

/-- When every interrupt read is `NONE`, the per-call tool execution loop
never reports an interruption. -/
theorem execToolCalls_no_interrupt {env : AgentEnv}
    (h : ∀ k, env.interruptReads k = .NONE) :
    ∀ (tcs : List ToolCall) (msgs : List Message) (appr : List (List String)) (i c : Nat),
    (execToolCalls env tcs msgs appr i c).interrupted = false
  | [], _, _, _, _ => rfl
  | tc :: rest, msgs, appr, i, c => by
    have hni : ¬ (env.interruptReads i ≠ InterruptType.NONE) := by simp [h i]
    simp only [execToolCalls, if_neg hni]
    split_ifs with hgate hconf hans
    · exact execToolCalls_no_interrupt h rest _ _ _ _
    · exact execToolCalls_no_interrupt h rest _ _ _ _
    · exact execToolCalls_no_interrupt h rest _ _ _ _
    · exact execToolCalls_no_interrupt h rest _ _ _ _

/-- With no interrupts and a model that puts tool calls in every response,
the loop spends all of its fuel (one iteration per unit). -/
theorem agent_loop_iterations {env : AgentEnv}
    (h1 : ∀ k, env.interruptReads k = .NONE)
    (h2 : ∀ n, 1 ≤ n → iterationToolCalls env n ≠ []) :
    ∀ (fuel iteration : Nat) (msgs : List Message) (appr : List (List String)) (i c : Nat),
    (agent_loop env fuel iteration msgs appr i c).iteration = iteration + fuel
  | 0, iteration, msgs, appr, i, c => rfl
  | fuel + 1, iteration, msgs, appr, i, c => by
    obtain ⟨d, hd⟩ :=
      consumeStream_of_none h1 (env.chatResp (iteration + 1)) "" [] i
    have htc : iterationToolCalls env (iteration + 1) ≠ [] := h2 (iteration + 1) (by omega)
    have htc' : ¬ ((iterationToolCalls env (iteration + 1)).isEmpty = true) := by
      cases hv : iterationToolCalls env (iteration + 1) with
      | nil => exact absurd hv htc
      | cons x xs => simp
    simp only [agent_loop, hd]
    rw [if_neg (by simp : ¬ (false = true))]
    simp only [iterationToolCalls] at htc'
    rw [if_pos htc']
    rw [if_neg (by simp [execToolCalls_no_interrupt h1])]
    rw [agent_loop_iterations h1 h2 fuel (iteration + 1) _ _ _ _]
    omega

/-- C7: with no interrupt signalled, a model whose every response resolves
to a non-empty tool-call list (and hence never a final answer) drives the
turn through exactly `max_iterations` (= 10) iterations, after which the
loop stops and the cap-reached warning fires. -/
theorem C7_iteration_cap (env : AgentEnv) (msgs0 : List Message)
    (appr0 : List (List String)) (input : String)
    (h1 : ∀ k, env.interruptReads k = .NONE)
    (h2 : ∀ n, 1 ≤ n → iterationToolCalls env n ≠ []) :
    (process_message env msgs0 appr0 input).iteration = max_iterations ∧
    (process_message env msgs0 appr0 input).cap_warning = true := by
  have h := agent_loop_iterations h1 h2 max_iterations 0
    ((if should_summarize env.countTokens env.max_tokens msgs0 then
        summarize_conversation env.summaryChunks msgs0 4
      else msgs0) ++ [{ role := "user", content := input }]) appr0 0 0
  constructor
  · simpa [process_message] using h
  · simp only [process_message]
    rw [h]
    simp [max_iterations]

/-- Witness for `C7_iteration_cap` on `envAlwaysTools`: exactly 10
iterations and the warning. -/
theorem C7_iteration_cap_witness :
    (process_message envAlwaysTools [msgSys] [] "hi").iteration = max_iterations ∧
    (process_message envAlwaysTools [msgSys] [] "hi").cap_warning = true :=
  C7_iteration_cap envAlwaysTools [msgSys] [] "hi" (fun _ => rfl)
    (fun n _ => fun h => by
      have hl : (iterationToolCalls envAlwaysTools n).length = 1 := rfl
      rw [h] at hl
      simp at hl)

/-- C8 counterexample: the interrupt reads non-NONE before iteration 2's
first streamed fragment (read index 2 of `envInterruptIter2`), the stream is
dropped and the turn ends — but iteration 1 already appended an assistant
message (with its tool call) and a tool-result message, so the conversation
after the turn holds more than the user message beyond its pre-turn state,
refuting the claim's "the conversation after the turn contains only the
appended user message beyond its pre-turn state". -/
theorem C8_counterexample :
    envInterruptIter2.interruptReads 2 = .SOFT ∧
    (process_message envInterruptIter2 [msgSys] [] "hi").messages =
      [msgSys, { role := "user", content := "hi" },
       { role := "assistant", content := "", tool_calls := some [tcRead] },
       { role := "tool", content := "ok" }] ∧
    (process_message envInterruptIter2 [msgSys] [] "hi").messages ≠
      [msgSys, { role := "user", content := "hi" }] := by
  refine ⟨rfl, rfl, fun h => ?_⟩
  exact absurd (congrArg List.length h) (by decide)

/-- An interrupted stream stops the iteration immediately: the loop returns
with the message list unchanged and the iteration counter advanced once. -/
theorem agent_loop_stop_interrupted (env : AgentEnv) (fuel iteration : Nat)
    (msgs : List Message) (appr : List (List String)) (i c : Nat)
    (h : (consumeStream env.interruptReads (env.chatResp (iteration + 1)) "" [] i).interrupted =
      true) :
    agent_loop env (fuel + 1) iteration msgs appr i c =
      ⟨msgs, appr, iteration + 1,
       (consumeStream env.interruptReads (env.chatResp (iteration + 1)) "" [] i).intIdx, c⟩ := by
  simp only [agent_loop, h, if_true]

/-- C8 (amended): a non-NONE interrupt read before consuming a streamed
fragment stops the stream, discards that iteration's partially accumulated
content, appends no assistant message for the interrupted iteration, and
terminates the turn; when it happens before the first fragment of the turn
(read index 0, first iteration), the conversation after the turn is exactly
the pre-turn conversation plus the user message.  (Messages appended by
*earlier completed* iterations of the same turn persist — see
`C8_counterexample`.) -/
theorem C8_interrupt_first_iteration (env : AgentEnv) (msgs0 : List Message)
    (appr0 : List (List String)) (input : String)
    (hsum : should_summarize env.countTokens env.max_tokens msgs0 = false)
    (hne : env.chatResp 1 ≠ [])
    (hint : env.interruptReads 0 ≠ .NONE) :
    (process_message env msgs0 appr0 input).messages =
      msgs0 ++ [{ role := "user", content := input }] ∧
    (process_message env msgs0 appr0 input).iteration = 1 := by
  obtain ⟨ch, rest, hch⟩ : ∃ ch rest, env.chatResp 1 = ch :: rest := by
    cases hv : env.chatResp 1 with
    | nil => exact absurd hv hne
    | cons a l => exact ⟨a, l, rfl⟩
  have hstep : consumeStream env.interruptReads (env.chatResp (0 + 1)) "" [] 0 =
      ⟨"", [], true, false, 1⟩ := by
    rw [Nat.zero_add, hch]
    simp only [consumeStream, if_pos hint]
  have hint' : (consumeStream env.interruptReads (env.chatResp (0 + 1)) "" [] 0).interrupted =
      true := by rw [hstep]
  constructor <;>
  · simp only [process_message, hsum, Bool.false_eq_true, if_false,
      show max_iterations = 9 + 1 from rfl]
    rw [agent_loop_stop_interrupted env 9 0 _ appr0 0 0 hint']

/-- Witness for `C8_interrupt_first_iteration` on `envInterruptFirst`. -/
theorem C8_interrupt_first_iteration_witness :
    (process_message envInterruptFirst [msgSys] [] "hi").messages =
      [msgSys] ++ [{ role := "user", content := "hi" }] :=
  (C8_interrupt_first_iteration envInterruptFirst [msgSys] [] "hi" rfl
    (fun h => absurd (congrArg List.length h) (by decide))
    (fun h => absurd h (by decide))).1

/-! ### Scanner lemmas for C1 -/

/-- The balanced-JSON scan is prefix-determined: a successful scan of `l`
gives the same result on `l ++ t`. -/
theorem fbjAux_append {t : List Char} : ∀ {l : List Char} {b k : Int} {i e : Bool} {n : Nat},
    fbjAux l b k i e = some n → fbjAux (l ++ t) b k i e = some n
  | [], _, _, _, _, _, h => by simp [fbjAux] at h
  | c :: rest, b, k, i, e, n, h => by
    simp only [fbjAux, List.cons_append] at h ⊢
    split_ifs at h ⊢ <;>
      first
        | exact h
        | · rw [Option.map_eq_some'] at h
            obtain ⟨m, hm, hn⟩ := h
            simp only [List.append_eq]
            rw [fbjAux_append hm]
            simp [hn]

/-- A successful `find_balanced_json` persists under appending. -/
theorem find_balanced_json_append {S t : List Char} {n : Nat}
    (h : find_balanced_json S = some n) : find_balanced_json (S ++ t) = some n := by
  cases S with
  | nil => simp [find_balanced_json] at h
  | cons c rest =>
    simp only [find_balanced_json, List.cons_append] at h ⊢
    by_cases hc : c = obr
    · rw [if_pos hc] at h ⊢
      exact fbjAux_append h
    · rw [if_neg hc] at h
      exact absurd h (by simp)

/-- A balanced region opens with `\x7b`. -/
theorem find_balanced_json_head {S : List Char} {n : Nat}
    (h : find_balanced_json S = some n) : ∃ S₀, S = obr :: S₀ := by
  cases S with
  | nil => simp [find_balanced_json] at h
  | cons c rest =>
    simp only [find_balanced_json] at h
    by_cases hc : c = obr
    · exact ⟨rest, by rw [hc]⟩
    · rw [if_neg hc] at h
      exact absurd h (by simp)

/-- The standard-format scan walks through a brace-free prefix without
finding anything. -/
theorem scanPhase1_append_nobrace : ∀ (p rest : List Char) (f pos : Nat), obr ∉ p →
    scanPhase1 (p.length + f) (p ++ rest) pos = scanPhase1 f rest (pos + p.length)
  | [], rest, f, pos, _ => by simp
  | c :: p, rest, f, pos, hp => by
    have hc : c ≠ obr := fun h => hp (h ▸ List.mem_cons_self c p)
    have hmem : obr ∉ p := fun h => hp (List.mem_cons_of_mem c h)
    show scanPhase1 (p.length + 1 + f) (c :: (p ++ rest)) pos = _
    rw [show p.length + 1 + f = (p.length + f) + 1 from by omega]
    simp only [scanPhase1, if_neg hc]
    rw [scanPhase1_append_nobrace p rest f (pos + 1) hmem]
    congr 1
    simp only [List.length_cons]
    omega

/-- The standard-format scan over brace-free text yields nothing. -/
theorem scanPhase1_nobrace : ∀ (f : Nat) (s : List Char) (pos : Nat), obr ∉ s →
    scanPhase1 f s pos = ([], [])
  | 0, _, _, _ => rfl
  | _ + 1, [], _, _ => rfl
  | f + 1, c :: rest, pos, h => by
    have hc : c ≠ obr := fun hc => h (hc ▸ List.mem_cons_self c rest)
    simp only [scanPhase1, if_neg hc]
    exact scanPhase1_nobrace f rest (pos + 1) (fun hm => h (List.mem_cons_of_mem c hm))

/-- The standard-format scan on `p ++ S ++ s` — with `S` a balanced region
that parses to a dict carrying `"name"` and `"arguments"`, and no opening
brace elsewhere — accepts exactly `S`. -/
theorem scanPhase1_single (p s S : List Char) (kvs A : List (String × Json)) (nm : Json)
    (hp : obr ∉ p) (hs : obr ∉ s)
    (hfbj : find_balanced_json S = some S.length)
    (hparse : json_loads S = some (Json.obj kvs))
    (hname : pyDictGet kvs "name" = some nm)
    (hargs : pyDictGet kvs "arguments" = some (Json.obj A)) :
    scanPhase1 (p ++ S ++ s).length (p ++ S ++ s) 0 =
      ([{ name := nm, arguments := A }],
       [(p.length, p.length + S.length)]) := by
  obtain ⟨S₀, hS⟩ := find_balanced_json_head hfbj
  subst hS
  have hfb2 : find_balanced_json (obr :: (S₀ ++ s)) = some (obr :: S₀).length := by
    simpa using find_balanced_json_append (t := s) hfbj
  have htake : (obr :: (S₀ ++ s)).take (obr :: S₀).length = obr :: S₀ := by
    have h := List.take_left (obr :: S₀) s
    simp only [List.cons_append] at h
    exact h
  have hdrop : (obr :: (S₀ ++ s)).drop (obr :: S₀).length = s := by
    have h := List.drop_left (obr :: S₀) s
    simp only [List.cons_append] at h
    exact h
  rw [List.append_assoc]
  have hlen : (p ++ ((obr :: S₀) ++ s)).length = p.length + ((S₀.length + s.length) + 1) := by
    simp [List.length_append]
  rw [hlen, scanPhase1_append_nobrace p _ _ 0 hp]
  simp only [List.cons_append]
  simp only [scanPhase1, if_pos rfl, hfb2, htake, hparse, hname, hargs]
  rw [hdrop, scanPhase1_nobrace _ s _ hs]
  simp

/-- C1 (amended): on an input `p ++ S ++ s` whose substring `S` is a
balanced, well-formed `{"name":N,"arguments":A}` object — nested braces and
escaped quotes inside `A` included, since `find_balanced_json` accepts the
whole of `S` — with no other opening brace in the surrounding text,
`extract_json_tool_call` yields exactly the one invocation `(N, A)` without
premature match termination, and the residual is the input with exactly
that substring removed, then stripped of leading/trailing whitespace
(`None` when empty). -/
theorem C1_extract_wellformed (p s S : List Char) (kvs A : List (String × Json)) (N : String)
    (hp : obr ∉ p) (hs : obr ∉ s)
    (hfbj : find_balanced_json S = some S.length)
    (hparse : json_loads S = some (Json.obj kvs))
    (hname : pyDictGet kvs "name" = some (Json.str N))
    (hargs : pyDictGet kvs "arguments" = some (Json.obj A)) :
    (extract_json_tool_call (p ++ S ++ s)).2 = [{ name := Json.str N, arguments := A }] ∧
    (extract_json_tool_call (p ++ S ++ s)).1 =
      (if (pyStrip (p ++ s)).isEmpty then none else some (pyStrip (p ++ s))) := by
  have hscan := scanPhase1_single p s S kvs A (Json.str N) hp hs hfbj hparse hname hargs
  have hdrop : (p ++ S ++ s).drop (p.length + S.length) = s := by
    have h := List.drop_left (p ++ S) s
    rwa [List.length_append] at h
  have htake : (p ++ S ++ s).take p.length = p := by
    rw [List.append_assoc]
    exact List.take_left p (S ++ s)
  have hrem : removeRanges (p ++ S ++ s) [(p.length, p.length + S.length)] = p ++ s := by
    unfold removeRanges
    simp only [sortLe, insertLe, List.reverse_singleton, List.foldl_cons, List.foldl_nil]
    rw [htake, hdrop]
  constructor <;>
  · unfold extract_json_tool_call
    simp only [hscan, List.isEmpty_cons, Bool.false_eq_true, if_false, hrem]

/-- C1 counterexample (against the claim as stated): the input
`x {"name":"x","arguments":{"inner":{"name":"t","arguments":{}}}}` contains
the well-formed substring `{"name":"t","arguments":{}}`, yet extraction (a)
yields no invocation `("t", {})` for it — only the outermost enclosing match
is taken — and (b) returns the residual stripped (`"x"`), not the input with
the matched substring exactly removed (`"x "`). -/
theorem C1_counterexample :
    extract_json_tool_call ("x \x7b\"name\":\"x\",\"arguments\":\x7b\"inner\":\x7b\"name\":\"t\",\"arguments\":\x7b\x7d\x7d\x7d\x7d").data =
      (some "x".data,
       [{ name := Json.str "x",
          arguments := [("inner", Json.obj [("name", Json.str "t"), ("arguments", Json.obj [])])] }]) ∧
    (∀ tc ∈ (extract_json_tool_call ("x \x7b\"name\":\"x\",\"arguments\":\x7b\"inner\":\x7b\"name\":\"t\",\"arguments\":\x7b\x7d\x7d\x7d\x7d").data).2,
      tc.name ≠ Json.str "t") ∧
    (extract_json_tool_call ("x \x7b\"name\":\"x\",\"arguments\":\x7b\"inner\":\x7b\"name\":\"t\",\"arguments\":\x7b\x7d\x7d\x7d\x7d").data).1 ≠
      some "x ".data := by
  refine ⟨rfl, ?_, by decide⟩
  intro tc htc
  rw [show (extract_json_tool_call ("x \x7b\"name\":\"x\",\"arguments\":\x7b\"inner\":\x7b\"name\":\"t\",\"arguments\":\x7b\x7d\x7d\x7d\x7d").data).2 =
      [{ name := Json.str "x",
         arguments := [("inner", Json.obj [("name", Json.str "t"), ("arguments", Json.obj [])])] }]
    from rfl] at htc
  rcases List.mem_singleton.mp htc with rfl
  simp

/-- Witness for `C1_extract_wellformed`: the claim's own escaped-quote
example `{"name":"t","arguments":{"a":"}"}}`, preceded by `a `, yields
exactly the invocation and the stripped residual `a`. -/
theorem C1_extract_wellformed_witness :
    (extract_json_tool_call ("a ".data ++ "\x7b\"name\":\"t\",\"arguments\":\x7b\"a\":\"\x7d\"\x7d\x7d".data ++ [])).2 =
      [{ name := Json.str "t", arguments := [("a", Json.str "\x7d")] }] ∧
    (extract_json_tool_call ("a ".data ++ "\x7b\"name\":\"t\",\"arguments\":\x7b\"a\":\"\x7d\"\x7d\x7d".data ++ [])).1 =
      some "a".data := by
  have h := C1_extract_wellformed "a ".data [] "\x7b\"name\":\"t\",\"arguments\":\x7b\"a\":\"\x7d\"\x7d\x7d".data
    [("name", Json.str "t"), ("arguments", Json.obj [("a", Json.str "\x7d")])]
    [("a", Json.str "\x7d")] "t" (by decide) (by decide) rfl rfl rfl rfl
  exact ⟨h.1, by rw [h.2]; rfl⟩

end ClaudeClone
